import Mathlib

/-!
# enlapin: the per-chat session handlers of `bot/bot.go`

A shallow embedding of the handlers `OnPlay`, `OnBtnJoin`, `OnBtnLeave` and
`OnBtnBegin` together with the helpers they call (`checkObselete`,
`replyObselete`, `chatState`, `PostChatState`, `UpdateChatState`).

* The session (`chatstate.ChatState`) is passed in and out as a value: the
  handler receives what `b.Chats.Get` returned and its outcome carries the
  session as it stands when the handler is left.
* Every call to a collaborator and every access to the session is recorded, in
  program order of the handler's goroutine, in a trace of `Event`s. A statement
  (or condition) that reads the session contributes one `sessRead`, one that
  writes it one `sessWrite`.
* Everything the handler cannot determine on its own (clock readings, the
  random draws, the result of each transport call, the order in which the
  delivery goroutines report) is an explicit input.
* `e.Print` only writes to the process log; it is not traced.
-/

namespace Enlapin

/-! ## Data -/

/-- An instant, in nanoseconds (`time.Time`). -/
abbrev Time := Int

/-- A span of time, in nanoseconds (`time.Duration`). -/
abbrev Duration := Int

/-- The constant `time.Second`. -/
def Second : Duration := 1000000000

/-- The constant `humanReactionTime = 2 * time.Second`. -/
def humanReactionTime : Duration := 2 * Second

/-- A `*tb.User`. The handlers compare users with `==` on the pointer, so a
user is represented by its address. -/
structure UserPtr where
  addr : Nat
deriving DecidableEq, Repr

/-- The fields of `tb.Chat` the handlers use. -/
structure Chat where
  ID : Int
  Private : Bool
deriving DecidableEq, Repr

/-- The fields of `tb.Message` the handlers use. -/
structure Message where
  ID : Int
  Unixtime : Int
  Chat : Chat
  Sender : UserPtr
  Text : String
deriving DecidableEq, Repr

/-- Two's-complement wrap-around of `int64` arithmetic. -/
def wrapInt64 (x : Int) : Int := (x + 2 ^ 63) % 2 ^ 64 - 2 ^ 63

/-- The constant `unixToInternal` of package `time`: the seconds from year 1 to 1970. -/
def unixToInternal : Int := 62135596800

/-- The method `m.Time()`, which is `time.Unix(m.Unixtime, 0)`: the message's
Unix time as an instant. `time.Unix` stores `sec + unixToInternal` in an
`int64`, which wraps around for dates beyond its range. -/
def Message.Time (m : Message) : Time :=
  (wrapInt64 (m.Unixtime + unixToInternal) - unixToInternal) * Second

/-- The fields of `tb.Callback` the handlers use. -/
structure Callback where
  Sender : UserPtr
  Message : Message
deriving DecidableEq, Repr

/-- The deck of a round: `cs.Card`, of which the handlers use `Words`. -/
structure Card where
  Name : String
  Words : List String
deriving DecidableEq, Repr

/-- The session record `chatstate.ChatState`, with the four fields the handlers
read and write. -/
structure ChatState where
  Card : Card
  Players : List UserPtr
  Last : Option Message
  LastBeginTime : Time
deriving DecidableEq, Repr

/-- The error values of `b.Send` that `OnBtnBegin` tells apart. -/
inductive SendError where
  | ErrNotStartedByUser
  | ErrBlockedByUser
  | other
deriving DecidableEq, Repr

/-- The parts of the package that the handlers use and that live outside
`bot.go`: message constants, renderers, the deck selector, the methods of
`chatstate.ChatState`, and the bot's user name `b.Me.Username`. The handlers are
defined for every choice of them. `Html` is the result type of `PlayersHTML`. -/
structure Deps (Html : Type) where
  Lifetime : Duration
  msgObsolete : String
  msgNoPlayers : String
  msgYouAreHare : String
  Username : String
  parseCard : String → Card
  renderChatState : ChatState → String
  PlayersHTML : ChatState → List UserPtr → Html
  renderUndelievered : Html → String → String
  renderPlay : Html → String → Bool → String
  Reset : ChatState → ChatState
  AddPlayer : ChatState → UserPtr → ChatState × Bool
  RemovePlayer : ChatState → UserPtr → ChatState × Bool

/-- What a handler does, in program order of the handler's own goroutine. -/
inductive Event where
  /-- The call `b.Chats.Get(chatID)`. -/
  | acquire (chatID : Int)
  /-- The call `unlock()`. -/
  | release (chatID : Int)
  /-- A read of the session. -/
  | sessRead
  /-- A write to the session. -/
  | sessWrite
  /-- The call `b.Reply(m, text)`. -/
  | reply (m : Message) (text : String)
  /-- The call `b.EditReplyMarkup(m, &tb.ReplyMarkup{})`, which removes the keyboard of `m`. -/
  | editReplyMarkup (m : Message)
  /-- The call `b.Edit(m, text, opts...)` with the options of `ChatStateMessage`. -/
  | edit (m : Message) (text : String)
  /-- The call `b.Post(chat, text, ...)`; `keyboard` tells whether the options
  are those of `ChatStateMessage` (the Join/Leave/Begin keyboard). -/
  | post (chat : Chat) (text : String) (keyboard : Bool)
  /-- The statement `go func(player) {...}(player)`: a goroutine is started that
  calls `b.Send(player, text)` once and reports the result on the channel. -/
  | goSend (player : UserPtr) (text : String)
  /-- The receive `r := <-results`. -/
  | recv (player : UserPtr) (err : Option SendError)
deriving DecidableEq, Repr

/-- The outcome of a handler: the session as it stands afterwards (`none` when
`Get` returned nil), the trace, and whether the handler left by a panic. -/
structure Outcome where
  cs : Option ChatState
  trace : List Event
  panicked : Bool
deriving DecidableEq, Repr

/-! ## Helpers of `bot.go` -/

variable {Html : Type}

/-- The function `replyObselete`: reply with the obsolete notice, then remove
the keyboard of the message. -/
def replyObselete (d : Deps Html) (m : Message) : List Event :=
  [Event.reply m d.msgObsolete, Event.editReplyMarkup m]

/-- The function `checkObselete`; `tNow` is the reading of `time.Now()`. -/
def checkObselete (d : Deps Html) (tNow : Time) (m : Message) : Bool × List Event :=
  if tNow < m.Time + d.Lifetime then (false, [])
  else (true, replyObselete d m)

/-- The function `chatState`; `stored` is what `b.Chats.Get` returns. The result
is the returned session pointer (`none` for nil) and the trace. When the result
is a session the lock is held, otherwise it is not. -/
def chatState (d : Deps Html) (tNow : Time) (stored : Option ChatState) (m : Message) :
    Option ChatState × List Event :=
  match checkObselete d tNow m with
  | (true, tr) => (none, tr)
  | (false, tr) =>
    match stored with
    | none =>
      (none, tr ++ [Event.acquire m.Chat.ID] ++ replyObselete d m ++ [Event.release m.Chat.ID])
    | some cs =>
      match cs.Last with
      | none =>
        (none, tr ++ [Event.acquire m.Chat.ID, Event.sessRead] ++ replyObselete d m
          ++ [Event.release m.Chat.ID])
      | some last =>
        if last.ID ≠ m.ID then
          (none, tr ++ [Event.acquire m.Chat.ID, Event.sessRead] ++ replyObselete d m
            ++ [Event.release m.Chat.ID])
        else (some cs, tr ++ [Event.acquire m.Chat.ID, Event.sessRead])

/-- The function `PostChatState`; `postResult` is the message `b.Post`
returned when it succeeded. -/
def PostChatState (d : Deps Html) (postResult : Option Message) (chat : Chat) (cs : ChatState) :
    ChatState × List Event :=
  let msg := d.renderChatState cs
  match postResult with
  | some resp => ({ cs with Last := some resp }, [Event.sessRead, Event.post chat msg true, Event.sessWrite])
  | none => (cs, [Event.sessRead, Event.post chat msg true])

/-- The function `UpdateChatState`. -/
def UpdateChatState (d : Deps Html) (cs : ChatState) : List Event :=
  match cs.Last with
  | none => [Event.sessRead]
  | some last =>
    [Event.sessRead, Event.sessRead, Event.sessRead, Event.edit last (d.renderChatState cs)]

/-! ## `OnPlay`, `OnBtnJoin`, `OnBtnLeave` -/

/-- The handler `OnPlay`. With a nil session the read of `cs.Last` panics and the
deferred `unlock` runs. -/
def OnPlay (d : Deps Html) (postResult : Option Message) (stored : Option ChatState)
    (m : Message) : Outcome :=
  match stored with
  | none => ⟨none, [Event.acquire m.Chat.ID, Event.release m.Chat.ID], true⟩
  | some cs =>
    let tr1 : List Event :=
      match cs.Last with
      | some last => [Event.sessRead, Event.sessRead, Event.editReplyMarkup last]
      | none => [Event.sessRead]
    let cs1 := d.Reset cs
    let cs2 := { cs1 with Card := d.parseCard m.Text }
    let cs3 := (d.AddPlayer cs2 m.Sender).1
    let p := PostChatState d postResult m.Chat cs3
    ⟨some p.1,
      [Event.acquire m.Chat.ID] ++ tr1 ++ [Event.sessWrite, Event.sessWrite, Event.sessWrite]
        ++ p.2 ++ [Event.release m.Chat.ID],
      false⟩

/-- The handler `OnBtnJoin`; `tNow` is the clock reading of `checkObselete`. -/
def OnBtnJoin (d : Deps Html) (tNow : Time) (stored : Option ChatState) (c : Callback) :
    Outcome :=
  let m := c.Message
  match chatState d tNow stored m with
  | (none, tr) => ⟨stored, tr, false⟩
  | (some cs, tr) =>
    let r := d.AddPlayer cs c.Sender
    if r.2 then
      ⟨some r.1, tr ++ [Event.sessWrite] ++ UpdateChatState d r.1 ++ [Event.release m.Chat.ID], false⟩
    else ⟨some r.1, tr ++ [Event.sessWrite] ++ [Event.release m.Chat.ID], false⟩

/-- The handler `OnBtnLeave`. -/
def OnBtnLeave (d : Deps Html) (tNow : Time) (stored : Option ChatState) (c : Callback) :
    Outcome :=
  let m := c.Message
  match chatState d tNow stored m with
  | (none, tr) => ⟨stored, tr, false⟩
  | (some cs, tr) =>
    let r := d.RemovePlayer cs c.Sender
    if r.2 then
      ⟨some r.1, tr ++ [Event.sessWrite] ++ UpdateChatState d r.1 ++ [Event.release m.Chat.ID], false⟩
    else ⟨some r.1, tr ++ [Event.sessWrite] ++ [Event.release m.Chat.ID], false⟩

/-! ## `OnBtnBegin` -/

/-- Everything `OnBtnBegin` takes from outside during one run. -/
structure BeginRun where
  /-- The reading `now := time.Now().UTC()` on entry. -/
  now : Time
  /-- The reading of `time.Now()` inside `checkObselete`. -/
  tCheck : Time
  /-- The index pairs with which `frand.Shuffle` calls the swap callback. -/
  swaps : List (Nat × Nat)
  /-- The random number behind `frand.Intn(len(cs.Players))`. -/
  hareDraw : Nat
  /-- The random number behind `frand.Intn(len(cs.Card.Words))`. -/
  wordDraw : Nat
  /-- The error `b.Send` returns in the goroutine started in iteration `i` of
  the delivery loop (`none` for nil). -/
  sendErr : Nat → Option SendError
  /-- The scheduler: which of the pending goroutines reports at each receive. -/
  picks : List Nat
  /-- The message `b.Post` returned for the public outcome, when it succeeded. -/
  postResult : Option Message
  /-- The reading of `time.Now().UTC()` after the public outcome was posted. -/
  tEnd : Time

/-- The swap callback handed to `frand.Shuffle`:
`cs.Players[i], cs.Players[j] = cs.Players[j], cs.Players[i]`. The library only
calls it with indices below `len(cs.Players)`; other indices leave the slice as
it is. -/
def swapPlayers (l : List UserPtr) (i j : Nat) : List UserPtr :=
  if h : i < l.length ∧ j < l.length then (l.set i l[j]).set j l[i] else l

/-- The call `frand.Shuffle(len(cs.Players), swap)`: the callback is run on each
index pair the library chooses, in order. -/
def Shuffle (l : List UserPtr) (swaps : List (Nat × Nat)) : List UserPtr :=
  swaps.foldl (fun acc ij => swapPlayers acc ij.1 ij.2) l

/-- The call `frand.Intn(n)`: it panics (`none`) for `n = 0` and otherwise
returns a number below `n`; as `draw` ranges over the naturals, `draw % n`
ranges over exactly the numbers below `n`. -/
def Intn (n draw : Nat) : Option Nat :=
  if n = 0 then none else some (draw % n)

/-- The two statements
`hare := cs.Players[frand.Intn(len(cs.Players))]` and
`word := cs.Card.Words[frand.Intn(len(cs.Card.Words))]`; `none` is a panic. -/
def drawHareWord (cs : ChatState) (hareDraw wordDraw : Nat) : Option (UserPtr × String) := do
  let hi ← Intn cs.Players.length hareDraw
  let hare ← cs.Players[hi]?
  let wi ← Intn cs.Card.Words.length wordDraw
  let word ← cs.Card.Words[wi]?
  pure (hare, word)

/-- The delivery loop `for _, player := range cs.Players`: the recipient and the
text of the goroutine started in each iteration. -/
def fanOut (d : Deps Html) (players : List UserPtr) (hare : UserPtr) (word : String) :
    List (UserPtr × String) :=
  players.map fun player => (player, if player = hare then d.msgYouAreHare else word)

/-- The local type `result` of `OnBtnBegin`. -/
structure result where
  player : UserPtr
  err : Option SendError
deriving DecidableEq, Repr

/-- The value each goroutine puts on the channel: the goroutine started in
iteration `i` (counted from `i0`) reports its player and the error of its
`b.Send`. -/
def sendResults (sendErr : Nat → Option SendError) : Nat → List UserPtr → List result
  | _, [] => []
  | i, player :: rest => ⟨player, sendErr i⟩ :: sendResults sendErr (i + 1) rest

/-- The receives of the loop `for range cs.Players { r := <-results ... }`, run
`n` times: each receive takes the result of one of the goroutines that have not
reported yet, whichever the scheduler picks. With nothing pending a receive
would block; this does not happen when `n` is the number of pending results. -/
def recvLoop : Nat → List result → List Nat → List result
  | 0, _, _ => []
  | n + 1, pending, picks =>
    match pending[picks.headD 0 % pending.length]? with
    | none => []
    | some r => r :: recvLoop n (pending.eraseIdx (picks.headD 0 % pending.length)) picks.tail

/-- The body of the receive loop accumulated over the received results:
`if r.err != nil { failed = append(failed, r.player) }`. -/
def collectFailed (arrived : List result) : List UserPtr :=
  arrived.foldl (fun failed r => if r.err ≠ none then failed ++ [r.player] else failed) []

/-- The results in the order in which the receive loop of `OnBtnBegin` gets
them: one goroutine per player of the roster, one receive per player. -/
def received (r : BeginRun) (players : List UserPtr) : List result :=
  recvLoop players.length (sendResults r.sendErr 0 players) r.picks

/-- The text of the public outcome:
`if len(failed) > 0 { msg = renderUndelievered(PlayersHTML(cs, failed), b.Me.Username) }
else { msg = renderPlay(PlayersHTML(cs, cs.Players), b.Me.Username, m.Private()) }`. -/
def outcomeMsg (d : Deps Html) (cs : ChatState) (failed : List UserPtr) (m : Message) : String :=
  if failed.length > 0 then d.renderUndelievered (d.PlayersHTML cs failed) d.Username
  else d.renderPlay (d.PlayersHTML cs cs.Players) d.Username m.Chat.Private

/-- The handler `OnBtnBegin`. -/
def OnBtnBegin (d : Deps Html) (r : BeginRun) (stored : Option ChatState) (c : Callback) :
    Outcome :=
  let m := c.Message
  match chatState d r.tCheck stored m with
  | (none, tr) => ⟨stored, tr, false⟩
  | (some cs, tr) =>
    if cs.LastBeginTime + humanReactionTime > r.now then
      ⟨some cs, tr ++ [Event.sessRead] ++ [Event.release m.Chat.ID], false⟩
    else if cs.Players.length = 0 then
      ⟨some cs,
        tr ++ [Event.sessRead, Event.sessRead, Event.reply m d.msgNoPlayers]
          ++ [Event.release m.Chat.ID],
        false⟩
    else
      let cs1 := { cs with Players := Shuffle cs.Players r.swaps }
      match drawHareWord cs1 r.hareDraw r.wordDraw with
      | none =>
        ⟨some cs1,
          tr ++ [Event.sessRead, Event.sessRead, Event.sessWrite, Event.sessRead, Event.sessRead]
            ++ [Event.release m.Chat.ID],
          true⟩
      | some (hare, word) =>
        let launches := fanOut d cs1.Players hare word
        let arrived := received r cs1.Players
        let failed := collectFailed arrived
        let msg := outcomeMsg d cs1 failed m
        let tr2 :=
          tr ++ [Event.sessRead, Event.sessRead, Event.sessWrite, Event.sessRead, Event.sessRead,
              Event.sessRead]
            ++ launches.map (fun l => Event.goSend l.1 l.2)
            ++ [Event.sessRead]
            ++ arrived.map (fun x => Event.recv x.player x.err)
            ++ [Event.sessRead, Event.post m.Chat msg false]
        match r.postResult with
        | some _ =>
          ⟨some { cs1 with LastBeginTime := r.tEnd },
            tr2 ++ [Event.sessWrite] ++ [Event.release m.Chat.ID], false⟩
        | none => ⟨some cs1, tr2 ++ [Event.release m.Chat.ID], false⟩

/-! ## Reading a trace -/

/-- The calls to the transport (the embedded `*tb.Bot`) in a trace. -/
def Event.isTransport : Event → Bool
  | .reply _ _ => true
  | .editReplyMarkup _ => true
  | .edit _ _ => true
  | .post _ _ _ => true
  | .goSend _ _ => true
  | _ => false

/-- Private deliveries. -/
def Event.isGoSend : Event → Bool
  | .goSend _ _ => true
  | _ => false

/-- Re-renders of the roster message. -/
def Event.isEdit : Event → Bool
  | .edit _ _ => true
  | _ => false

/-- Posts to the chat. -/
def Event.isPost : Event → Bool
  | .post _ _ _ => true
  | _ => false

/-- Received delivery results. -/
def Event.isRecv : Event → Bool
  | .recv _ _ => true
  | _ => false

/-- Calls of `b.Chats.Get`. -/
def Event.isAcquire : Event → Bool
  | .acquire _ => true
  | _ => false

/-- Calls of `unlock`. -/
def Event.isRelease : Event → Bool
  | .release _ => true
  | _ => false

/-- Reads and writes of the session. -/
def Event.isAccess : Event → Bool
  | .sessRead => true
  | .sessWrite => true
  | _ => false

/-- The transport calls of a trace, in order. -/
def transport (tr : List Event) : List Event := tr.filter Event.isTransport

/-- The trace of a Begin that runs the resolution, up to and including the public post. -/
def resolveTrace (d : Deps Html) (r : BeginRun) (cs1 : ChatState) (m : Message)
    (hare : UserPtr) (word : String) : List Event :=
  [Event.acquire m.Chat.ID, Event.sessRead, Event.sessRead, Event.sessRead, Event.sessWrite,
      Event.sessRead, Event.sessRead, Event.sessRead]
    ++ (fanOut d cs1.Players hare word).map (fun l => Event.goSend l.1 l.2)
    ++ [Event.sessRead]
    ++ (received r cs1.Players).map (fun x => Event.recv x.player x.err)
    ++ [Event.sessRead,
        Event.post m.Chat (outcomeMsg d cs1 (collectFailed (received r cs1.Players)) m) false]

/-- Private deliveries whose text is `notice`. -/
def Event.sentText (notice : String) : Event → Bool
  | .goSend _ text => decide (text = notice)
  | _ => false

/-- Removals of a keyboard. -/
def Event.isEditReplyMarkup : Event → Bool
  | .editReplyMarkup _ => true
  | _ => false

/-- A stretch of a trace without `Get` and without `unlock`. -/
def NoLock (l : List Event) : Prop :=
  ∀ e ∈ l, e.isAcquire = false ∧ e.isRelease = false

/-- The lease discipline of a handler's trace: as many `unlock` calls as `Get`
calls, at most one of each, and every access to the session has the `Get`
before it, no `unlock` before it and the `unlock` after it. -/
def LeaseDiscipline (tr : List Event) : Prop :=
  tr.countP Event.isRelease = tr.countP Event.isAcquire ∧
  tr.countP Event.isAcquire ≤ 1 ∧
  ∀ pre e post, tr = pre ++ e :: post → e.isAccess = true →
    (∃ a ∈ pre, a.isAcquire = true) ∧ (∀ x ∈ pre, x.isRelease = false) ∧
      ∃ x ∈ post, x.isRelease = true


/-! ## A concrete instance, for evaluating the handlers on examples -/

/-- Modelled from the spec: `chatstate.ChatState.Reset` (outside `bot.go`), which
clears the roster, the deck and the message reference at the start of a round. -/
def sampleReset (cs : ChatState) : ChatState :=
  { cs with Card := ⟨"", []⟩, Players := [], Last := none }

/-- Modelled from the spec: `chatstate.ChatState.AddPlayer` (outside `bot.go`),
which adds the participant if absent and reports whether it did. -/
def sampleAddPlayer (cs : ChatState) (u : UserPtr) : ChatState × Bool :=
  if u ∈ cs.Players then (cs, false) else ({ cs with Players := cs.Players ++ [u] }, true)

/-- Modelled from the spec: `chatstate.ChatState.RemovePlayer` (outside
`bot.go`), which removes the participant if present and reports whether it did. -/
def sampleRemovePlayer (cs : ChatState) (u : UserPtr) : ChatState × Bool :=
  if u ∈ cs.Players then ({ cs with Players := cs.Players.erase u }, true) else (cs, false)

/-- A one-letter name for a player address, for the sample renderers. -/
def sampleName : Nat → String
  | 1 => "A"
  | 2 => "B"
  | 3 => "C"
  | _ => "?"

/-- Modelled from the spec: the constants and renderers outside `bot.go`, with
placeholder texts; the renderers name the players they are given. -/
def sampleDeps : Deps (List Nat) where
  Lifetime := 3600 * Second
  msgObsolete := "obsolete"
  msgNoPlayers := "no players"
  msgYouAreHare := "hare"
  Username := "bot"
  parseCard := fun t => ⟨t, ["apple"]⟩
  renderChatState := fun _ => "state"
  PlayersHTML := fun _ ps => ps.map UserPtr.addr
  renderUndelievered := fun h u => "undelivered " ++ String.join (h.map sampleName) ++ u
  renderPlay := fun h u _ => "play " ++ String.join (h.map sampleName) ++ u
  Reset := sampleReset
  AddPlayer := sampleAddPlayer
  RemovePlayer := sampleRemovePlayer

/-- A chat. -/
def chat0 : Chat := ⟨7, false⟩

/-- The first interactive message of the chat. -/
def msgM1 : Message := ⟨1, 100, chat0, ⟨1⟩, "/play"⟩

/-- A later interactive message of the chat. -/
def msgM2 : Message := ⟨2, 200, chat0, ⟨1⟩, "/play"⟩

/-- The public outcome message of a round. -/
def msgM3 : Message := ⟨3, 300, chat0, ⟨0⟩, ""⟩

/-- A session with three players whose current message is `msgM1`. -/
def cs3 : ChatState := ⟨⟨"fruit", ["apple", "pear"]⟩, [⟨1⟩, ⟨2⟩, ⟨3⟩], some msgM1, 0⟩

/-- A session with three players whose deck holds the text of the hare notice of
`sampleDeps` as a word. -/
def csHare : ChatState := ⟨⟨"animals", ["hare"]⟩, [⟨1⟩, ⟨2⟩, ⟨3⟩], some msgM1, 0⟩

/-- A session with no players whose current message is `msgM1`. -/
def cs0 : ChatState := ⟨⟨"fruit", ["apple"]⟩, [], some msgM1, 0⟩

/-- A run of `OnBtnBegin` at 110 s in which every delivery and the public post succeed. -/
def runOk : BeginRun :=
  ⟨110 * Second, 110 * Second, [(2, 0), (1, 1)], 4, 0, fun _ => none, [1, 0, 0], some msgM3,
    111 * Second⟩

/-- A run in which the delivery started second fails and the one started third
reports first. -/
def runFail : BeginRun :=
  { runOk with sendErr := fun i => if i = 1 then some SendError.ErrBlockedByUser else none,
               picks := [2, 0, 0] }

/-- A run with the same shuffle result as `runOk` and other draws for the hare and the
word, another arrival order and other clock readings. -/
def runOk2 : BeginRun :=
  ⟨120 * Second, 121 * Second, [(0, 2)], 0, 5, fun _ => none, [0, 0, 0], none,
    125 * Second⟩

/-- The run `runOk` with a public post that fails. -/
def runPostFails : BeginRun := { runOk with postResult := none }

/-- A second Begin, entered one second after `runOk`. -/
def runSecond : BeginRun := { runOk with now := 111 * Second, tCheck := 112 * Second }

/-! ## Lemmas on the helpers -/

theorem swapPlayers_perm (l : List UserPtr) (i j : Nat) : (swapPlayers l i j).Perm l := by
  unfold swapPlayers
  split
  · rename_i h
    rw [List.perm_iff_count]
    intro a
    rw [List.count_set _ _ _ _ (by simpa using h.2), List.count_set _ _ _ _ h.1]
    simp only [List.getElem_set]
    have h1 := List.count_pos_iff.mpr (List.getElem_mem h.1)
    have h2 := List.count_pos_iff.mpr (List.getElem_mem h.2)
    by_cases hij : i = j
    · subst hij
      by_cases ha : l[i] = a
      · subst ha; simp
      · simp [ha]
    · by_cases ha : l[i] = a <;> by_cases hb : l[j] = a
      · subst ha; simp [hij, hb]
      · subst ha; simp [hij, hb]
      · subst hb; simp [hij, ha]
      · simp [hij, ha, hb]
  · exact List.Perm.refl _

theorem Shuffle_perm (swaps : List (Nat × Nat)) (l : List UserPtr) : (Shuffle l swaps).Perm l := by
  unfold Shuffle
  induction swaps generalizing l with
  | nil => exact List.Perm.refl _
  | cons s rest ih => exact (ih _).trans (swapPlayers_perm l s.1 s.2)

theorem getElem_cons_eraseIdx_perm {α : Type} (l : List α) (k : Nat) (h : k < l.length) :
    (l[k] :: l.eraseIdx k).Perm l := by
  induction l generalizing k with
  | nil => simp at h
  | cons a t ih =>
    cases k with
    | zero => simp
    | succ k =>
      have hk : k < t.length := by simpa using h
      simp only [List.getElem_cons_succ, List.eraseIdx_cons_succ]
      exact (List.Perm.swap a t[k] (t.eraseIdx k)).trans ((ih k hk).cons a)

theorem recvLoop_perm (n : Nat) (pending : List result) (picks : List Nat)
    (hn : pending.length = n) : (recvLoop n pending picks).Perm pending := by
  induction n generalizing pending picks with
  | zero =>
    have : pending = [] := List.length_eq_zero.mp hn
    subst this
    simp [recvLoop]
  | succ n ih =>
    have hpos : 0 < pending.length := by omega
    have hk : picks.headD 0 % pending.length < pending.length := Nat.mod_lt _ hpos
    unfold recvLoop
    rw [List.getElem?_eq_getElem hk]
    simp only
    have hlen : (pending.eraseIdx (picks.headD 0 % pending.length)).length = n := by
      rw [List.length_eraseIdx, if_pos hk]; omega
    exact ((ih _ picks.tail hlen).cons _).trans (getElem_cons_eraseIdx_perm pending _ hk)

theorem collectFailed_eq (arrived : List result) :
    collectFailed arrived = (arrived.filter (fun r => decide (r.err ≠ none))).map result.player := by
  have key : ∀ (acc : List UserPtr) (l : List result),
      l.foldl (fun failed r => if r.err ≠ none then failed ++ [r.player] else failed) acc
        = acc ++ (l.filter (fun r => decide (r.err ≠ none))).map result.player := by
    intro acc l
    induction l generalizing acc with
    | nil => simp
    | cons r t ih =>
      rw [List.foldl_cons, ih]
      by_cases hr : r.err = none <;> simp [hr, List.filter_cons]
  simpa [collectFailed] using key [] arrived

theorem chatState_current (d : Deps Html) (tNow : Time) (cs : ChatState) (m last : Message)
    (hAge : tNow < m.Time + d.Lifetime) (hLast : cs.Last = some last) (hID : last.ID = m.ID) :
    chatState d tNow (some cs) m = (some cs, [Event.acquire m.Chat.ID, Event.sessRead]) := by
  simp [chatState, checkObselete, hAge, hLast, hID]

theorem chatState_stale (d : Deps Html) (tNow : Time) (cs : ChatState) (m : Message)
    (h : ¬ (tNow < m.Time + d.Lifetime) ∨ cs.Last = none ∨
      ∃ last, cs.Last = some last ∧ last.ID ≠ m.ID) :
    chatState d tNow (some cs) m = (none, replyObselete d m) ∨
    chatState d tNow (some cs) m =
      (none, [Event.acquire m.Chat.ID, Event.sessRead] ++ replyObselete d m
        ++ [Event.release m.Chat.ID]) := by
  by_cases hAge : tNow < m.Time + d.Lifetime
  · right
    rcases h with h | h | ⟨last, h, hne⟩
    · exact absurd hAge h
    · simp [chatState, checkObselete, hAge, h]
    · simp [chatState, checkObselete, hAge, h, hne]
  · left
    simp [chatState, checkObselete, hAge]

/-- The shape of the outcome of a handler on a stale interaction. -/
theorem stale_outcome (d : Deps Html) (cs : ChatState) (m : Message) (o : Outcome)
    (hcs : o.cs = some cs) (hp : o.panicked = false)
    (htr : o.trace = replyObselete d m ∨
      o.trace = [Event.acquire m.Chat.ID, Event.sessRead] ++ replyObselete d m
        ++ [Event.release m.Chat.ID]) :
    o.cs = some cs ∧ o.panicked = false ∧ transport o.trace = replyObselete d m ∧
      ∀ e ∈ o.trace, e.isGoSend = false ∧ e.isEdit = false ∧ e ≠ Event.sessWrite := by
  refine ⟨hcs, hp, ?_, ?_⟩
  · rcases htr with h | h <;> rw [h] <;> simp [transport, replyObselete, Event.isTransport]
  · rcases htr with h | h <;> rw [h] <;>
      simp [replyObselete, Event.isGoSend, Event.isEdit]

theorem drawHareWord_some (cs : ChatState) (hd wd : Nat) (hN : cs.Players ≠ [])
    (hM : cs.Card.Words ≠ []) :
    ∃ hare word, drawHareWord cs hd wd = some (hare, word) ∧ hare ∈ cs.Players ∧
      word ∈ cs.Card.Words := by
  have hn : 0 < cs.Players.length := List.length_pos.mpr hN
  have hm : 0 < cs.Card.Words.length := List.length_pos.mpr hM
  have h1 : hd % cs.Players.length < cs.Players.length := Nat.mod_lt _ hn
  have h2 : wd % cs.Card.Words.length < cs.Card.Words.length := Nat.mod_lt _ hm
  refine ⟨cs.Players[hd % cs.Players.length], cs.Card.Words[wd % cs.Card.Words.length], ?_,
    List.getElem_mem _, List.getElem_mem _⟩
  simp [drawHareWord, Intn, Nat.pos_iff_ne_zero.mp hn, Nat.pos_iff_ne_zero.mp hm,
    List.getElem?_eq_getElem h1, List.getElem?_eq_getElem h2]

theorem drawHareWord_none (cs : ChatState) (hd wd : Nat) (hM : cs.Card.Words = []) :
    drawHareWord cs hd wd = none := by
  unfold drawHareWord
  simp [Intn, hM]

theorem OnBtnBegin_resolve (d : Deps Html) (r : BeginRun) (cs : ChatState) (c : Callback)
    (last : Message) (hAge : r.tCheck < c.Message.Time + d.Lifetime)
    (hLast : cs.Last = some last) (hID : last.ID = c.Message.ID)
    (hDeb : ¬ (cs.LastBeginTime + humanReactionTime > r.now))
    (hN : cs.Players ≠ []) (hare : UserPtr) (word : String)
    (hDraw : drawHareWord { cs with Players := Shuffle cs.Players r.swaps } r.hareDraw r.wordDraw
      = some (hare, word)) :
    OnBtnBegin d r (some cs) c =
      match r.postResult with
      | some _ =>
        ⟨some { cs with Players := Shuffle cs.Players r.swaps, LastBeginTime := r.tEnd },
          resolveTrace d r { cs with Players := Shuffle cs.Players r.swaps } c.Message hare word
            ++ [Event.sessWrite, Event.release c.Message.Chat.ID], false⟩
      | none =>
        ⟨some { cs with Players := Shuffle cs.Players r.swaps },
          resolveTrace d r { cs with Players := Shuffle cs.Players r.swaps } c.Message hare word
            ++ [Event.release c.Message.Chat.ID], false⟩ := by
  have hlen : cs.Players.length ≠ 0 := by
    intro h; exact hN (List.length_eq_zero.mp h)
  simp only [OnBtnBegin, chatState_current d r.tCheck cs c.Message last hAge hLast hID, hDeb,
    hlen, if_false, hDraw]
  cases r.postResult <;> simp [resolveTrace]

theorem length_sendResults (e : Nat → Option SendError) (i0 : Nat) (l : List UserPtr) :
    (sendResults e i0 l).length = l.length := by
  induction l generalizing i0 with
  | nil => rfl
  | cons p t ih => simp [sendResults, ih]

theorem map_player_sendResults (e : Nat → Option SendError) (i0 : Nat) (l : List UserPtr) :
    (sendResults e i0 l).map result.player = l := by
  induction l generalizing i0 with
  | nil => rfl
  | cons p t ih => simp [sendResults, ih]

theorem mem_sendResults (e : Nat → Option SendError) (i0 : Nat) (l : List UserPtr) (x : result) :
    x ∈ sendResults e i0 l ↔ ∃ j, l[j]? = some x.player ∧ x.err = e (i0 + j) := by
  induction l generalizing i0 with
  | nil => simp [sendResults]
  | cons p t ih =>
    simp only [sendResults, List.mem_cons, ih]
    constructor
    · rintro (h | ⟨j, hj, he⟩)
      · exact ⟨0, by simp [h], by simp [h]⟩
      · exact ⟨j + 1, by simpa using hj, by rw [he]; congr 1; omega⟩
    · rintro ⟨j, hj, he⟩
      cases j with
      | zero =>
        left
        cases x
        simp at hj he
        simp [hj, he]
      | succ j =>
        right
        exact ⟨j, by simpa using hj, by rw [he]; congr 1; omega⟩

theorem countP_sendResults (e : Nat → Option SendError) (i0 : Nat) (l : List UserPtr) :
    (sendResults e i0 l).countP (fun x => decide (x.err ≠ none))
      = (List.range l.length).countP (fun j => decide (e (i0 + j) ≠ none)) := by
  induction l generalizing i0 with
  | nil => rfl
  | cons p t ih =>
    rw [sendResults, List.length_cons, List.range_succ_eq_map, List.countP_cons, List.countP_cons,
      List.countP_map, ih]
    have : ((fun j => decide (e (i0 + j) ≠ none)) ∘ Nat.succ)
        = (fun j => decide (e (i0 + 1 + j) ≠ none)) := by
      funext j
      simp only [Function.comp, Nat.succ_eq_add_one]
      congr 3
      omega
    rw [this]
    simp

theorem received_perm (r : BeginRun) (l : List UserPtr) :
    (received r l).Perm (sendResults r.sendErr 0 l) :=
  recvLoop_perm _ _ _ (length_sendResults _ _ _)

theorem collectFailed_received_perm (r : BeginRun) (l : List UserPtr) :
    (collectFailed (received r l)).Perm
      (((sendResults r.sendErr 0 l).filter (fun x => decide (x.err ≠ none))).map result.player) := by
  rw [collectFailed_eq]
  exact ((received_perm r l).filter _).map _

theorem mem_collectFailed_received (r : BeginRun) (l : List UserPtr) (p : UserPtr) :
    p ∈ collectFailed (received r l) ↔ ∃ i, l[i]? = some p ∧ r.sendErr i ≠ none := by
  rw [(collectFailed_received_perm r l).mem_iff]
  simp only [List.mem_map, List.mem_filter, mem_sendResults, decide_eq_true_eq]
  constructor
  · rintro ⟨x, ⟨⟨j, hj, he⟩, hx⟩, rfl⟩
    exact ⟨j, hj, by simpa [he] using hx⟩
  · rintro ⟨i, hi, he⟩
    exact ⟨⟨p, r.sendErr i⟩, ⟨⟨i, hi, by simp⟩, he⟩, rfl⟩

theorem length_collectFailed_received (r : BeginRun) (l : List UserPtr) :
    (collectFailed (received r l)).length
      = (List.range l.length).countP (fun i => decide (r.sendErr i ≠ none)) := by
  rw [(collectFailed_received_perm r l).length_eq, List.length_map, ← List.countP_eq_length_filter,
    countP_sendResults]
  simp

theorem nodup_collectFailed_received (r : BeginRun) (l : List UserPtr) (h : l.Nodup) :
    (collectFailed (received r l)).Nodup := by
  rw [(collectFailed_received_perm r l).nodup_iff]
  have hs : (((sendResults r.sendErr 0 l).filter (fun x => decide (x.err ≠ none))).map
      result.player).Sublist ((sendResults r.sendErr 0 l).map result.player) :=
    (List.filter_sublist _).map _
  rw [map_player_sendResults] at hs
  exact h.sublist hs

theorem collectFailed_received_nil (r : BeginRun) (l : List UserPtr)
    (h : ∀ i, i < l.length → r.sendErr i = none) : collectFailed (received r l) = [] := by
  rw [List.eq_nil_iff_forall_not_mem]
  intro p hp
  obtain ⟨i, hi, he⟩ := (mem_collectFailed_received r l p).mp hp
  have hlt : i < l.length := by
    by_contra hge
    rw [List.getElem?_eq_none (by omega)] at hi
    simp at hi
  exact he (h i hlt)

theorem filter_isGoSend_resolveTrace (d : Deps Html) (r : BeginRun) (cs1 : ChatState)
    (m : Message) (hare : UserPtr) (word : String) (tail : List Event)
    (ht : tail.filter Event.isGoSend = []) :
    (resolveTrace d r cs1 m hare word ++ tail).filter Event.isGoSend
      = cs1.Players.map
          (fun p => Event.goSend p (if p = hare then d.msgYouAreHare else word)) := by
  have h1 : ∀ L : List (UserPtr × String),
      (L.map (fun l => Event.goSend l.1 l.2)).filter Event.isGoSend
        = L.map (fun l => Event.goSend l.1 l.2) := by
    intro L
    rw [List.filter_eq_self]
    intro e he
    obtain ⟨x, _, rfl⟩ := List.mem_map.mp he
    rfl
  have h2 : ∀ L : List result,
      (L.map (fun x => Event.recv x.player x.err)).filter Event.isGoSend = [] := by
    intro L
    rw [List.filter_eq_nil_iff]
    intro e he
    obtain ⟨x, _, rfl⟩ := List.mem_map.mp he
    simp [Event.isGoSend]
  simp only [resolveTrace, List.filter_append, h1, h2, ht]
  simp [Event.isGoSend, fanOut]

theorem filter_isPost_resolveTrace (d : Deps Html) (r : BeginRun) (cs1 : ChatState)
    (m : Message) (hare : UserPtr) (word : String) (tail : List Event)
    (ht : tail.filter Event.isPost = []) :
    (resolveTrace d r cs1 m hare word ++ tail).filter Event.isPost
      = [Event.post m.Chat (outcomeMsg d cs1 (collectFailed (received r cs1.Players)) m) false] := by
  have h1 : ∀ L : List (UserPtr × String),
      (L.map (fun l => Event.goSend l.1 l.2)).filter Event.isPost = [] := by
    intro L
    rw [List.filter_eq_nil_iff]
    intro e he
    obtain ⟨x, _, rfl⟩ := List.mem_map.mp he
    simp [Event.isPost]
  have h2 : ∀ L : List result,
      (L.map (fun x => Event.recv x.player x.err)).filter Event.isPost = [] := by
    intro L
    rw [List.filter_eq_nil_iff]
    intro e he
    obtain ⟨x, _, rfl⟩ := List.mem_map.mp he
    simp [Event.isPost]
  simp only [resolveTrace, List.filter_append, h1, h2, ht]
  simp [Event.isPost]

/-- The outcome of a Begin that runs the resolution, for either result of the public post. -/
theorem OnBtnBegin_resolve_fields (d : Deps Html) (r : BeginRun) (cs : ChatState) (c : Callback)
    (last : Message) (hAge : r.tCheck < c.Message.Time + d.Lifetime)
    (hLast : cs.Last = some last) (hID : last.ID = c.Message.ID)
    (hDeb : ¬ (cs.LastBeginTime + humanReactionTime > r.now))
    (hN : cs.Players ≠ []) (hM : cs.Card.Words ≠ []) :
    ∃ hare word tail,
      hare ∈ Shuffle cs.Players r.swaps ∧ word ∈ cs.Card.Words ∧
      (tail = [Event.sessWrite, Event.release c.Message.Chat.ID] ∨
        tail = [Event.release c.Message.Chat.ID]) ∧
      (OnBtnBegin d r (some cs) c).trace =
        resolveTrace d r { cs with Players := Shuffle cs.Players r.swaps } c.Message hare word
          ++ tail ∧
      (OnBtnBegin d r (some cs) c).cs =
        some { cs with
          Players := Shuffle cs.Players r.swaps
          LastBeginTime := match r.postResult with
            | some _ => r.tEnd
            | none => cs.LastBeginTime } ∧
      (OnBtnBegin d r (some cs) c).panicked = false := by
  have hN1 : ({ cs with Players := Shuffle cs.Players r.swaps } : ChatState).Players ≠ [] := by
    intro h
    have hp := Shuffle_perm r.swaps cs.Players
    simp only at h
    rw [h] at hp
    exact hN hp.symm.eq_nil
  obtain ⟨hare, word, hd, hh, hw⟩ :=
    drawHareWord_some { cs with Players := Shuffle cs.Players r.swaps } r.hareDraw r.wordDraw hN1 hM
  have ho := OnBtnBegin_resolve d r cs c last hAge hLast hID hDeb hN hare word hd
  cases hpr : r.postResult with
  | none =>
    rw [hpr] at ho
    exact ⟨hare, word, _, hh, hw, Or.inr rfl, by rw [ho], by rw [ho], by rw [ho]⟩
  | some resp =>
    rw [hpr] at ho
    exact ⟨hare, word, _, hh, hw, Or.inl rfl, by rw [ho], by rw [ho], by rw [ho]⟩

theorem noLock_nil : NoLock [] := by
  intro e he
  simp at he

theorem noLock_cons (e : Event) (l : List Event) (h1 : e.isAcquire = false)
    (h2 : e.isRelease = false) (h : NoLock l) : NoLock (e :: l) := by
  intro x hx
  rcases List.mem_cons.mp hx with rfl | hx
  · exact ⟨h1, h2⟩
  · exact h x hx

theorem noLock_append (l1 l2 : List Event) (h1 : NoLock l1) (h2 : NoLock l2) :
    NoLock (l1 ++ l2) := by
  intro x hx
  rcases List.mem_append.mp hx with hx | hx
  · exact h1 x hx
  · exact h2 x hx

theorem noLock_replyObselete (d : Deps Html) (m : Message) : NoLock (replyObselete d m) :=
  noLock_cons _ _ rfl rfl (noLock_cons _ _ rfl rfl noLock_nil)

theorem noLock_UpdateChatState (d : Deps Html) (cs : ChatState) : NoLock (UpdateChatState d cs) := by
  unfold UpdateChatState
  split
  · exact noLock_cons _ _ rfl rfl noLock_nil
  · exact noLock_cons _ _ rfl rfl (noLock_cons _ _ rfl rfl (noLock_cons _ _ rfl rfl
      (noLock_cons _ _ rfl rfl noLock_nil)))

theorem noLock_PostChatState (d : Deps Html) (pr : Option Message) (chat : Chat)
    (cs : ChatState) : NoLock (PostChatState d pr chat cs).2 := by
  unfold PostChatState
  cases pr with
  | none => exact noLock_cons _ _ rfl rfl (noLock_cons _ _ rfl rfl noLock_nil)
  | some resp =>
    exact noLock_cons _ _ rfl rfl (noLock_cons _ _ rfl rfl (noLock_cons _ _ rfl rfl noLock_nil))

theorem noLock_goSends (L : List (UserPtr × String)) :
    NoLock (L.map (fun l => Event.goSend l.1 l.2)) := by
  intro e he
  obtain ⟨x, _, rfl⟩ := List.mem_map.mp he
  exact ⟨rfl, rfl⟩

theorem noLock_recvs (L : List result) :
    NoLock (L.map (fun x => Event.recv x.player x.err)) := by
  intro e he
  obtain ⟨x, _, rfl⟩ := List.mem_map.mp he
  exact ⟨rfl, rfl⟩

theorem lease_bracket (c : Int) (mid : List Event) (hmid : NoLock mid) :
    LeaseDiscipline (Event.acquire c :: (mid ++ [Event.release c])) := by
  have hA : mid.countP Event.isAcquire = 0 :=
    List.countP_eq_zero.mpr (fun e he => by simp [(hmid e he).1])
  have hR : mid.countP Event.isRelease = 0 :=
    List.countP_eq_zero.mpr (fun e he => by simp [(hmid e he).2])
  refine ⟨?_, ?_, ?_⟩
  · simp [List.countP_cons, List.countP_append, hA, hR, Event.isAcquire, Event.isRelease]
  · simp [List.countP_cons, List.countP_append, hA, Event.isAcquire]
  · intro pre e post h hacc
    cases pre with
    | nil =>
      simp only [List.nil_append, List.cons.injEq] at h
      rw [← h.1] at hacc
      simp [Event.isAccess] at hacc
    | cons a pre' =>
      simp only [List.cons_append, List.cons.injEq] at h
      obtain ⟨ha, h⟩ := h
      rcases List.append_eq_append_iff.mp h with ⟨a', h1, h2⟩ | ⟨c', h1, h2⟩
      · cases a' with
        | nil =>
          simp only [List.nil_append, List.cons.injEq] at h2
          rw [← h2.1] at hacc
          simp [Event.isAccess] at hacc
        | cons x a'' =>
          simp at h2
      · cases c' with
        | nil =>
          simp only [List.nil_append, List.cons.injEq] at h2
          rw [h2.1] at hacc
          simp [Event.isAccess] at hacc
        | cons x c'' =>
          simp only [List.cons_append, List.cons.injEq] at h2
          refine ⟨⟨a, List.mem_cons_self _ _, by rw [← ha]; rfl⟩, ?_,
            ⟨Event.release c, by rw [h2.2]; simp, rfl⟩⟩
          intro y hy
          rcases List.mem_cons.mp hy with rfl | hy
          · rw [← ha]; rfl
          · exact (hmid y (by rw [h1]; exact List.mem_append_left _ hy)).2

theorem lease_free (tr : List Event)
    (h : ∀ e ∈ tr, e.isAcquire = false ∧ e.isRelease = false ∧ e.isAccess = false) :
    LeaseDiscipline tr := by
  have hA : tr.countP Event.isAcquire = 0 :=
    List.countP_eq_zero.mpr (fun e he => by simp [(h e he).1])
  have hR : tr.countP Event.isRelease = 0 :=
    List.countP_eq_zero.mpr (fun e he => by simp [(h e he).2.1])
  refine ⟨by rw [hA, hR], by rw [hA]; exact Nat.zero_le _, ?_⟩
  intro pre e post he hacc
  have := (h e (by rw [he]; simp)).2.2
  rw [this] at hacc
  exact absurd hacc (by simp)

theorem lease_replyObselete (d : Deps Html) (m : Message) :
    LeaseDiscipline (replyObselete d m) := by
  apply lease_free
  intro e he
  simp only [replyObselete, List.mem_cons, List.mem_singleton, List.not_mem_nil, or_false] at he
  rcases he with rfl | rfl <;> exact ⟨rfl, rfl, rfl⟩

/-- The ways `chatState` can return. -/
theorem chatState_cases (d : Deps Html) (tNow : Time) (stored : Option ChatState) (m : Message) :
    chatState d tNow stored m = (none, replyObselete d m) ∨
    chatState d tNow stored m =
      (none, Event.acquire m.Chat.ID :: (replyObselete d m ++ [Event.release m.Chat.ID])) ∨
    chatState d tNow stored m =
      (none, Event.acquire m.Chat.ID ::
        ((Event.sessRead :: replyObselete d m) ++ [Event.release m.Chat.ID])) ∨
    ∃ cs, stored = some cs ∧
      chatState d tNow stored m = (some cs, [Event.acquire m.Chat.ID, Event.sessRead]) := by
  unfold chatState checkObselete
  by_cases hAge : tNow < m.Time + d.Lifetime
  · simp only [hAge, if_true]
    cases stored with
    | none => right; left; simp
    | some cs =>
      cases hL : cs.Last with
      | none => right; right; left; simp [hL]
      | some last =>
        by_cases hID : last.ID = m.ID
        · right; right; right
          exact ⟨cs, rfl, by simp [hL, hID]⟩
        · right; right; left; simp [hL, hID]
  · left
    simp [hAge]

theorem lease_chatState_none (d : Deps Html) (tNow : Time) (stored : Option ChatState)
    (m : Message) (tr : List Event) (h : chatState d tNow stored m = (none, tr)) :
    LeaseDiscipline tr := by
  rcases chatState_cases d tNow stored m with h1 | h1 | h1 | ⟨cs, _, h1⟩
  · rw [h1] at h
    rw [← (Prod.mk.inj h).2]
    exact lease_replyObselete d m
  · rw [h1] at h
    rw [← (Prod.mk.inj h).2]
    exact lease_bracket _ _ (noLock_replyObselete d m)
  · rw [h1] at h
    rw [← (Prod.mk.inj h).2]
    exact lease_bracket _ _ (noLock_cons _ _ rfl rfl (noLock_replyObselete d m))
  · rw [h1] at h
    simp at h

theorem chatState_some (d : Deps Html) (tNow : Time) (stored : Option ChatState) (m : Message)
    (cs : ChatState) (tr : List Event) (h : chatState d tNow stored m = (some cs, tr)) :
    stored = some cs ∧ tr = [Event.acquire m.Chat.ID, Event.sessRead] := by
  rcases chatState_cases d tNow stored m with h1 | h1 | h1 | ⟨cs', hs, h1⟩
  · rw [h1] at h; simp at h
  · rw [h1] at h; simp at h
  · rw [h1] at h; simp at h
  · rw [h1] at h
    simp only [Prod.mk.injEq, Option.some.injEq] at h
    exact ⟨by rw [hs, h.1], h.2.symm⟩

theorem noLock_cons_iff (e : Event) (l : List Event) :
    NoLock (e :: l) ↔ (e.isAcquire = false ∧ e.isRelease = false) ∧ NoLock l := by
  constructor
  · intro h
    exact ⟨h e (List.mem_cons_self _ _), fun x hx => h x (List.mem_cons_of_mem _ hx)⟩
  · rintro ⟨⟨h1, h2⟩, h⟩
    exact noLock_cons e l h1 h2 h

theorem noLock_append_iff (l1 l2 : List Event) :
    NoLock (l1 ++ l2) ↔ NoLock l1 ∧ NoLock l2 := by
  constructor
  · intro h
    exact ⟨fun x hx => h x (List.mem_append_left _ hx), fun x hx => h x (List.mem_append_right _ hx)⟩
  · rintro ⟨h1, h2⟩
    exact noLock_append l1 l2 h1 h2

theorem lease_bracket_of_eq (c : Int) (tr mid : List Event)
    (h : tr = Event.acquire c :: (mid ++ [Event.release c])) (hmid : NoLock mid) :
    LeaseDiscipline tr := by
  rw [h]
  exact lease_bracket c mid hmid

theorem lease_OnPlay (d : Deps Html) (pr : Option Message) (stored : Option ChatState)
    (m : Message) : LeaseDiscipline (OnPlay d pr stored m).trace := by
  cases stored with
  | none => exact lease_bracket m.Chat.ID [] noLock_nil
  | some cs =>
    cases hL : cs.Last with
    | none =>
      refine lease_bracket_of_eq m.Chat.ID _
        ([Event.sessRead, Event.sessWrite, Event.sessWrite, Event.sessWrite]
          ++ (PostChatState d pr m.Chat
            (d.AddPlayer { d.Reset cs with Card := d.parseCard m.Text } m.Sender).1).2)
        (by simp [OnPlay, hL]) ?_
      simp [noLock_cons_iff, noLock_append_iff, noLock_nil, noLock_PostChatState,
        Event.isAcquire, Event.isRelease]
    | some last =>
      refine lease_bracket_of_eq m.Chat.ID _
        ([Event.sessRead, Event.sessRead, Event.editReplyMarkup last, Event.sessWrite,
            Event.sessWrite, Event.sessWrite]
          ++ (PostChatState d pr m.Chat
            (d.AddPlayer { d.Reset cs with Card := d.parseCard m.Text } m.Sender).1).2)
        (by simp [OnPlay, hL]) ?_
      simp [noLock_cons_iff, noLock_append_iff, noLock_nil, noLock_PostChatState,
        Event.isAcquire, Event.isRelease]

theorem lease_OnBtnJoin (d : Deps Html) (tNow : Time) (stored : Option ChatState)
    (c : Callback) : LeaseDiscipline (OnBtnJoin d tNow stored c).trace := by
  unfold OnBtnJoin
  simp only
  split
  · rename_i tr heq
    exact lease_chatState_none d tNow stored c.Message tr heq
  · rename_i cs tr heq
    obtain ⟨-, rfl⟩ := chatState_some d tNow stored c.Message cs tr heq
    split
    · refine lease_bracket_of_eq c.Message.Chat.ID _
        ([Event.sessRead, Event.sessWrite] ++ UpdateChatState d (d.AddPlayer cs c.Sender).1)
        (by simp) ?_
      simp [noLock_cons_iff, noLock_append_iff, noLock_nil, noLock_UpdateChatState,
        Event.isAcquire, Event.isRelease]
    · exact lease_bracket _ [Event.sessRead, Event.sessWrite]
        (noLock_cons _ _ rfl rfl (noLock_cons _ _ rfl rfl noLock_nil))

theorem lease_OnBtnLeave (d : Deps Html) (tNow : Time) (stored : Option ChatState)
    (c : Callback) : LeaseDiscipline (OnBtnLeave d tNow stored c).trace := by
  unfold OnBtnLeave
  simp only
  split
  · rename_i tr heq
    exact lease_chatState_none d tNow stored c.Message tr heq
  · rename_i cs tr heq
    obtain ⟨-, rfl⟩ := chatState_some d tNow stored c.Message cs tr heq
    split
    · refine lease_bracket_of_eq c.Message.Chat.ID _
        ([Event.sessRead, Event.sessWrite] ++ UpdateChatState d (d.RemovePlayer cs c.Sender).1)
        (by simp) ?_
      simp [noLock_cons_iff, noLock_append_iff, noLock_nil, noLock_UpdateChatState,
        Event.isAcquire, Event.isRelease]
    · exact lease_bracket _ [Event.sessRead, Event.sessWrite]
        (noLock_cons _ _ rfl rfl (noLock_cons _ _ rfl rfl noLock_nil))

theorem lease_OnBtnBegin (d : Deps Html) (r : BeginRun) (stored : Option ChatState)
    (c : Callback) : LeaseDiscipline (OnBtnBegin d r stored c).trace := by
  unfold OnBtnBegin
  simp only
  split
  · rename_i tr heq
    exact lease_chatState_none d r.tCheck stored c.Message tr heq
  · rename_i cs tr heq
    obtain ⟨-, rfl⟩ := chatState_some d r.tCheck stored c.Message cs tr heq
    split
    · exact lease_bracket _ [Event.sessRead, Event.sessRead]
        (noLock_cons _ _ rfl rfl (noLock_cons _ _ rfl rfl noLock_nil))
    · split
      · refine lease_bracket_of_eq c.Message.Chat.ID _
          [Event.sessRead, Event.sessRead, Event.sessRead, Event.reply c.Message d.msgNoPlayers]
          (by simp) ?_
        simp [noLock_cons_iff, noLock_nil, Event.isAcquire, Event.isRelease]
      · split
        · refine lease_bracket_of_eq c.Message.Chat.ID _
            [Event.sessRead, Event.sessRead, Event.sessRead, Event.sessWrite, Event.sessRead,
              Event.sessRead]
            (by simp) ?_
          simp [noLock_cons_iff, noLock_nil, Event.isAcquire, Event.isRelease]
        · rename_i hare word hdraw
          have hbody : ∀ tail : List Event, NoLock tail →
              NoLock ([Event.sessRead, Event.sessRead, Event.sessRead, Event.sessWrite,
                  Event.sessRead, Event.sessRead, Event.sessRead]
                ++ (fanOut d (Shuffle cs.Players r.swaps) hare word).map
                    (fun l => Event.goSend l.1 l.2)
                ++ [Event.sessRead]
                ++ (received r (Shuffle cs.Players r.swaps)).map
                    (fun x => Event.recv x.player x.err)
                ++ [Event.sessRead, Event.post c.Message.Chat
                    (outcomeMsg d { cs with Players := Shuffle cs.Players r.swaps }
                      (collectFailed (received r (Shuffle cs.Players r.swaps))) c.Message) false]
                ++ tail) := by
            intro tail ht
            simp [noLock_cons_iff, noLock_append_iff, noLock_nil, noLock_goSends, noLock_recvs,
              Event.isAcquire, Event.isRelease, ht]
          split
          · exact lease_bracket_of_eq c.Message.Chat.ID _ _ (by simp)
              (hbody [Event.sessWrite] (noLock_cons _ _ rfl rfl noLock_nil))
          · exact lease_bracket_of_eq c.Message.Chat.ID _ _ (by simp) (hbody [] noLock_nil)

theorem filter_sentText_eq (notice : String) (tr : List Event) :
    tr.filter (Event.sentText notice) = (tr.filter Event.isGoSend).filter (Event.sentText notice) := by
  rw [List.filter_filter]
  congr 1
  funext e
  cases e <;> simp [Event.sentText, Event.isGoSend]

theorem filter_sentText_deliveries (roster : List UserPtr) (hare : UserPtr)
    (notice word : String) (hword : word ≠ notice) (hnd : roster.Nodup) (hh : hare ∈ roster) :
    (roster.map (fun p => Event.goSend p (if p = hare then notice else word))).filter
        (Event.sentText notice)
      = [Event.goSend hare notice] := by
  induction roster with
  | nil => simp at hh
  | cons a t ih =>
    have hnd' := List.nodup_cons.mp hnd
    by_cases ha : a = hare
    · subst ha
      have hrest : (t.map (fun p => Event.goSend p (if p = a then notice else word))).filter
          (Event.sentText notice) = [] := by
        rw [List.filter_eq_nil_iff]
        intro e he
        obtain ⟨p, hp, rfl⟩ := List.mem_map.mp he
        have hpa : p ≠ a := fun h => hnd'.1 (h ▸ hp)
        simp [Event.sentText, hpa, hword]
      simp [List.filter_cons, Event.sentText, hrest]
    · have hht : hare ∈ t := by
        rcases List.mem_cons.mp hh with h | h
        · exact absurd h.symm ha
        · exact h
      simp [List.filter_cons, Event.sentText, ha, hword, ih hnd'.2 hht]

/-! ## The claims -/

/-- C1: a Join, Leave or Begin that is stale (the message is past its lifetime, or
the session has no current message, or the current message has another ID)
leaves the session as it was, starts no private delivery, does not re-render
the roster, writes nothing to the session, and its transport calls are those of
`replyObselete`: the obsolete reply, then the removal of the keyboard. -/
theorem stale_interaction_changes_nothing (d : Deps Html) (tNow : Time) (r : BeginRun)
    (cs : ChatState) (c : Callback)
    (hStale : ¬ (tNow < c.Message.Time + d.Lifetime) ∨ cs.Last = none ∨
      ∃ last, cs.Last = some last ∧ last.ID ≠ c.Message.ID) :
    ∀ o ∈ [OnBtnJoin d tNow (some cs) c, OnBtnLeave d tNow (some cs) c,
        OnBtnBegin d { r with tCheck := tNow } (some cs) c],
      o.cs = some cs ∧ o.panicked = false ∧
      transport o.trace = [Event.reply c.Message d.msgObsolete, Event.editReplyMarkup c.Message] ∧
      ∀ e ∈ o.trace, e.isGoSend = false ∧ e.isEdit = false ∧ e ≠ Event.sessWrite := by
  intro o ho
  have hs := chatState_stale d tNow cs c.Message hStale
  simp only [List.mem_cons, List.mem_singleton, List.not_mem_nil, or_false] at ho
  apply stale_outcome d cs c.Message o
  all_goals
    rcases ho with ho | ho | ho <;> subst ho <;> rcases hs with hs | hs <;>
      simp [OnBtnJoin, OnBtnLeave, OnBtnBegin, hs]

theorem stale_interaction_changes_nothing_witness :
    (¬ ((110 * Second : Time) < msgM1.Time + sampleDeps.Lifetime) ∨
        ({ cs3 with Last := some msgM2 } : ChatState).Last = none ∨
        ∃ last, ({ cs3 with Last := some msgM2 } : ChatState).Last = some last ∧ last.ID ≠ msgM1.ID) ∧
    ∀ o ∈ [OnBtnJoin sampleDeps (110 * Second) (some { cs3 with Last := some msgM2 }) ⟨⟨4⟩, msgM1⟩,
        OnBtnLeave sampleDeps (110 * Second) (some { cs3 with Last := some msgM2 }) ⟨⟨4⟩, msgM1⟩,
        OnBtnBegin sampleDeps { runOk with tCheck := 110 * Second }
          (some { cs3 with Last := some msgM2 }) ⟨⟨4⟩, msgM1⟩],
      o.cs = some { cs3 with Last := some msgM2 } ∧ o.panicked = false ∧
      transport o.trace = [Event.reply msgM1 sampleDeps.msgObsolete, Event.editReplyMarkup msgM1] ∧
      ∀ e ∈ o.trace, e.isGoSend = false ∧ e.isEdit = false ∧ e ≠ Event.sessWrite :=
  ⟨Or.inr (Or.inr ⟨msgM2, rfl, by decide⟩),
    stale_interaction_changes_nothing sampleDeps (110 * Second) runOk
      { cs3 with Last := some msgM2 } ⟨⟨4⟩, msgM1⟩ (Or.inr (Or.inr ⟨msgM2, rfl, by decide⟩))⟩

/-- C9: a Begin on the current message that is not debounced and finds the roster
empty replies with `msgNoPlayers` and makes no other transport call: the trace
is the acquire, three session reads, the reply and the release; no random number
is used (the outcome is the same for all draws), nothing is delivered or posted,
and the session, `LastBeginTime` included, is as before. -/
theorem begin_empty_roster (d : Deps Html) (r : BeginRun) (cs : ChatState) (c : Callback)
    (last : Message) (hAge : r.tCheck < c.Message.Time + d.Lifetime)
    (hLast : cs.Last = some last) (hID : last.ID = c.Message.ID)
    (hDeb : ¬ (cs.LastBeginTime + humanReactionTime > r.now))
    (hEmpty : cs.Players = []) :
    OnBtnBegin d r (some cs) c =
      ⟨some cs,
        [Event.acquire c.Message.Chat.ID, Event.sessRead, Event.sessRead, Event.sessRead,
          Event.reply c.Message d.msgNoPlayers, Event.release c.Message.Chat.ID],
        false⟩ ∧
    transport (OnBtnBegin d r (some cs) c).trace = [Event.reply c.Message d.msgNoPlayers] ∧
    ∀ (swaps : List (Nat × Nat)) (hareDraw wordDraw : Nat) (sendErr : Nat → Option SendError)
        (picks : List Nat) (postResult : Option Message) (tEnd : Time),
      OnBtnBegin d ⟨r.now, r.tCheck, swaps, hareDraw, wordDraw, sendErr, picks, postResult, tEnd⟩
        (some cs) c = OnBtnBegin d r (some cs) c := by
  have h1 : ∀ r2 : BeginRun, r2.now = r.now → r2.tCheck = r.tCheck →
      OnBtnBegin d r2 (some cs) c =
      ⟨some cs,
        [Event.acquire c.Message.Chat.ID, Event.sessRead, Event.sessRead, Event.sessRead,
          Event.reply c.Message d.msgNoPlayers, Event.release c.Message.Chat.ID],
        false⟩ := by
    intro r2 hn ht
    rw [← hn] at hDeb
    rw [← ht] at hAge
    simp [OnBtnBegin, chatState_current d r2.tCheck cs c.Message last hAge hLast hID, hDeb, hEmpty]
  refine ⟨h1 r rfl rfl, ?_, ?_⟩
  · rw [h1 r rfl rfl]
    simp [transport, Event.isTransport]
  · intro swaps hareDraw wordDraw sendErr picks postResult tEnd
    rw [h1 r rfl rfl]
    exact h1 _ rfl rfl

theorem begin_empty_roster_witness :
    OnBtnBegin sampleDeps runOk (some cs0) ⟨⟨2⟩, msgM1⟩ =
      ⟨some cs0,
        [Event.acquire 7, Event.sessRead, Event.sessRead, Event.sessRead,
          Event.reply msgM1 "no players", Event.release 7],
        false⟩ :=
  (begin_empty_roster sampleDeps runOk cs0 ⟨⟨2⟩, msgM1⟩ msgM1 (by decide) rfl rfl (by decide)
    rfl).1

/-- C10: whatever the run, `OnBtnBegin` leaves a session whose roster is a
permutation of the roster before (every participant with the same
multiplicity, so membership and freedom from duplicates, of pointers and of the
identities `ident` reads behind them, carry over both ways) and whose deck and
current message are unchanged. -/
theorem begin_preserves_roster (d : Deps Html) (r : BeginRun) (cs : ChatState) (c : Callback) :
    ∃ cs', (OnBtnBegin d r (some cs) c).cs = some cs' ∧
      cs'.Players.Perm cs.Players ∧
      (∀ p, cs'.Players.count p = cs.Players.count p) ∧
      (∀ p, p ∈ cs'.Players ↔ p ∈ cs.Players) ∧
      (cs'.Players.Nodup ↔ cs.Players.Nodup) ∧
      (∀ ident : UserPtr → Int, (cs'.Players.map ident).Nodup ↔ (cs.Players.map ident).Nodup) ∧
      cs'.Card = cs.Card ∧ cs'.Last = cs.Last := by
  have key : ∃ cs', (OnBtnBegin d r (some cs) c).cs = some cs' ∧
      cs'.Players.Perm cs.Players ∧ cs'.Card = cs.Card ∧ cs'.Last = cs.Last := by
    have hp := Shuffle_perm r.swaps cs.Players
    unfold OnBtnBegin
    simp only
    split
    · exact ⟨cs, rfl, List.Perm.refl _, rfl, rfl⟩
    · rename_i cs2 tr heq
      have hcs : cs2 = cs := by
        unfold chatState at heq
        split at heq
        · simp at heq
        · split at heq
          · simp at heq
          · rename_i cs3 hs
            have : cs3 = cs := by simpa using hs.symm
            subst this
            split at heq
            · simp at heq
            · split at heq
              · simp at heq
              · simp at heq; exact heq.1.symm
      subst hcs
      split
      · exact ⟨cs2, rfl, List.Perm.refl _, rfl, rfl⟩
      · split
        · exact ⟨cs2, rfl, List.Perm.refl _, rfl, rfl⟩
        · split
          · exact ⟨_, rfl, hp, rfl, rfl⟩
          · split
            · exact ⟨_, rfl, hp, rfl, rfl⟩
            · exact ⟨_, rfl, hp, rfl, rfl⟩
  obtain ⟨cs', h1, h2, h3, h4⟩ := key
  exact ⟨cs', h1, h2, fun p => h2.count_eq p, fun p => h2.mem_iff, h2.nodup_iff,
    fun ident => (h2.map ident).nodup_iff, h3, h4⟩

/-- C3, the claim as written fails: in the run `runOk` on the session `cs3` the
Begin runs the resolution and posts the outcome, the handler was entered at
110 s, the clock read 111 s after the post, and `LastBeginTime` ends up as
111 s, not 110 s. -/
theorem begin_time_is_not_entry_time :
    ((OnBtnBegin sampleDeps runOk (some cs3) ⟨⟨2⟩, msgM1⟩).trace.filter Event.isPost).length = 1 ∧
    runOk.now = 110 * Second ∧
    (OnBtnBegin sampleDeps runOk (some cs3) ⟨⟨2⟩, msgM1⟩).cs.map ChatState.LastBeginTime
      = some (111 * Second) ∧
    (OnBtnBegin sampleDeps runOk (some cs3) ⟨⟨2⟩, msgM1⟩).cs.map ChatState.LastBeginTime
      ≠ some runOk.now := by
  decide

/-- C3, amended: after a Begin that runs the resolution (current message, not
debounced, roster and deck not empty), `LastBeginTime` is the clock reading
taken after the public outcome was posted when that post succeeded, and is
unchanged when the post failed. -/
theorem begin_sets_time_after_post (d : Deps Html) (r : BeginRun) (cs : ChatState) (c : Callback)
    (last : Message) (hAge : r.tCheck < c.Message.Time + d.Lifetime)
    (hLast : cs.Last = some last) (hID : last.ID = c.Message.ID)
    (hDeb : ¬ (cs.LastBeginTime + humanReactionTime > r.now))
    (hN : cs.Players ≠ []) (hM : cs.Card.Words ≠ []) :
    (OnBtnBegin d r (some cs) c).cs.map ChatState.LastBeginTime =
      some (match r.postResult with
        | some _ => r.tEnd
        | none => cs.LastBeginTime) := by
  obtain ⟨hare, word, tail, -, -, -, -, hcs, -⟩ :=
    OnBtnBegin_resolve_fields d r cs c last hAge hLast hID hDeb hN hM
  rw [hcs]
  rfl

theorem begin_sets_time_after_post_witness :
    (OnBtnBegin sampleDeps runOk (some cs3) ⟨⟨2⟩, msgM1⟩).cs.map ChatState.LastBeginTime =
      some (match runOk.postResult with
        | some _ => runOk.tEnd
        | none => cs3.LastBeginTime) :=
  begin_sets_time_after_post sampleDeps runOk cs3 ⟨⟨2⟩, msgM1⟩ msgM1 (by decide) rfl rfl
    (by decide) (by decide) (by decide)

/-- C4, the claim as written fails: the deck of `csHare` has one word, and that
word is the text of `msgYouAreHare`. The roster has three distinct
participants, the Begin runs the resolution, and all three members, not one,
are sent `msgYouAreHare`. -/
theorem begin_notice_sent_to_all :
    (csHare.Players.map UserPtr.addr).Nodup ∧
    1 ≤ csHare.Players.length ∧ 1 ≤ csHare.Card.Words.length ∧
    (OnBtnBegin sampleDeps runOk (some csHare) ⟨⟨2⟩, msgM1⟩).trace.filter Event.isGoSend =
      [Event.goSend ⟨3⟩ sampleDeps.msgYouAreHare, Event.goSend ⟨2⟩ sampleDeps.msgYouAreHare,
        Event.goSend ⟨1⟩ sampleDeps.msgYouAreHare] ∧
    ((OnBtnBegin sampleDeps runOk (some csHare) ⟨⟨2⟩, msgM1⟩).trace.filter
      (Event.sentText sampleDeps.msgYouAreHare)).length = 3 := by
  decide

/-- C4, amended: a Begin on the current message that is not debounced, on a
roster of `N ≥ 1` participants with pairwise distinct identities (`ident` reads
the identity behind a user pointer) and a deck of `M ≥ 1` words, starts exactly
`N` private deliveries, one per member of the (shuffled) roster in roster
order; exactly one member is the hare and is sent `msgYouAreHare`; every other
member is sent the same word, and that word is in the deck. When
`msgYouAreHare` is not itself a word of the deck, the delivery to the hare is
the only one whose text is `msgYouAreHare`. A lone participant is the hare and
is the only recipient. -/
theorem begin_deliveries (d : Deps Html) (r : BeginRun) (cs : ChatState) (c : Callback)
    (last : Message) (hAge : r.tCheck < c.Message.Time + d.Lifetime)
    (hLast : cs.Last = some last) (hID : last.ID = c.Message.ID)
    (hDeb : ¬ (cs.LastBeginTime + humanReactionTime > r.now))
    (ident : UserPtr → Int) (hDistinct : (cs.Players.map ident).Nodup)
    (hN : 1 ≤ cs.Players.length) (hM : 1 ≤ cs.Card.Words.length) :
    ∃ roster hare word,
      (OnBtnBegin d r (some cs) c).cs.map ChatState.Players = some roster ∧
      roster.Perm cs.Players ∧
      hare ∈ roster ∧ roster.count hare = 1 ∧
      (roster.filter (fun p => decide (ident p = ident hare))).length = 1 ∧
      word ∈ cs.Card.Words ∧
      (OnBtnBegin d r (some cs) c).trace.filter Event.isGoSend =
        roster.map (fun p => Event.goSend p (if p = hare then d.msgYouAreHare else word)) ∧
      ((OnBtnBegin d r (some cs) c).trace.filter Event.isGoSend).length = cs.Players.length ∧
      (d.msgYouAreHare ∉ cs.Card.Words →
        (OnBtnBegin d r (some cs) c).trace.filter (Event.sentText d.msgYouAreHare)
          = [Event.goSend hare d.msgYouAreHare]) ∧
      ∀ p, cs.Players = [p] →
        (OnBtnBegin d r (some cs) c).trace.filter Event.isGoSend
          = [Event.goSend p d.msgYouAreHare] := by
  have hN' : cs.Players ≠ [] := by
    intro h; rw [h] at hN; simp at hN
  have hM' : cs.Card.Words ≠ [] := by
    intro h; rw [h] at hM; simp at hM
  obtain ⟨hare, word, tail, hh, hw, htail, htr, hcs, -⟩ :=
    OnBtnBegin_resolve_fields d r cs c last hAge hLast hID hDeb hN' hM'
  have hperm := Shuffle_perm r.swaps cs.Players
  have hnd : (Shuffle cs.Players r.swaps).Nodup := hperm.nodup_iff.mpr hDistinct.of_map
  have hndI : ((Shuffle cs.Players r.swaps).map ident).Nodup :=
    (hperm.map ident).nodup_iff.mpr hDistinct
  have hgs : (OnBtnBegin d r (some cs) c).trace.filter Event.isGoSend =
      (Shuffle cs.Players r.swaps).map
        (fun p => Event.goSend p (if p = hare then d.msgYouAreHare else word)) := by
    rw [htr]
    apply filter_isGoSend_resolveTrace
    rcases htail with h | h <;> rw [h] <;> simp [Event.isGoSend]
  refine ⟨Shuffle cs.Players r.swaps, hare, word, by rw [hcs]; rfl, hperm, hh,
    List.count_eq_one_of_mem hnd hh, ?_, hw, hgs, ?_, ?_, ?_⟩
  · have hc : ((Shuffle cs.Players r.swaps).map ident).count (ident hare) = 1 :=
      List.count_eq_one_of_mem hndI (List.mem_map_of_mem _ hh)
    rw [List.count_eq_countP, List.countP_map, List.countP_eq_length_filter] at hc
    rw [← hc]
    congr 2
  · rw [hgs, List.length_map, hperm.length_eq]
  · intro hNotice
    have hword : word ≠ d.msgYouAreHare := fun h => hNotice (h ▸ hw)
    rw [filter_sentText_eq, hgs,
      filter_sentText_deliveries _ hare d.msgYouAreHare word hword hnd hh]
  · intro p hp
    rw [hgs]
    have hs : Shuffle cs.Players r.swaps = [p] := by
      have h1 : (Shuffle cs.Players r.swaps).Perm [p] := hp ▸ hperm
      exact List.perm_singleton.mp h1
    rw [hs] at hh
    have : hare = p := by simpa using hh
    subst this
    simp [hs]

theorem begin_deliveries_witness :
    (∃ roster hare word,
      (OnBtnBegin sampleDeps runOk (some cs3) ⟨⟨2⟩, msgM1⟩).cs.map ChatState.Players
        = some roster ∧
      roster.Perm cs3.Players ∧
      hare ∈ roster ∧ roster.count hare = 1 ∧
      (roster.filter (fun p => decide ((p.addr : Int) = (hare.addr : Int)))).length = 1 ∧
      word ∈ cs3.Card.Words ∧
      (OnBtnBegin sampleDeps runOk (some cs3) ⟨⟨2⟩, msgM1⟩).trace.filter Event.isGoSend =
        roster.map
          (fun p => Event.goSend p (if p = hare then sampleDeps.msgYouAreHare else word)) ∧
      ((OnBtnBegin sampleDeps runOk (some cs3) ⟨⟨2⟩, msgM1⟩).trace.filter Event.isGoSend).length
        = cs3.Players.length ∧
      (sampleDeps.msgYouAreHare ∉ cs3.Card.Words →
        (OnBtnBegin sampleDeps runOk (some cs3) ⟨⟨2⟩, msgM1⟩).trace.filter
            (Event.sentText sampleDeps.msgYouAreHare)
          = [Event.goSend hare sampleDeps.msgYouAreHare]) ∧
      ∀ p, cs3.Players = [p] →
        (OnBtnBegin sampleDeps runOk (some cs3) ⟨⟨2⟩, msgM1⟩).trace.filter Event.isGoSend
          = [Event.goSend p sampleDeps.msgYouAreHare]) ∧
    sampleDeps.msgYouAreHare ∉ cs3.Card.Words ∧
    (OnBtnBegin sampleDeps runOk (some cs3) ⟨⟨2⟩, msgM1⟩).trace.filter
        (Event.sentText sampleDeps.msgYouAreHare)
      = [Event.goSend ⟨2⟩ sampleDeps.msgYouAreHare] :=
  ⟨begin_deliveries sampleDeps runOk cs3 ⟨⟨2⟩, msgM1⟩ msgM1 (by decide) rfl rfl (by decide)
      (fun p => (p.addr : Int)) (by decide) (by decide) (by decide),
    by decide, by decide⟩

/-- C5: in a Begin that runs the resolution over a roster of distinct
participants in which at least one delivery fails, the list `failed` holds
exactly the participants whose `b.Send` returned an error: a player is in it if
and only if the delivery of some roster position holding that player failed, no
player is in it twice, its length is the number of failed deliveries, and
another arrival order only permutes it. The public outcome is
`renderUndelievered` over `PlayersHTML(cs, failed)`, and every roster member
has exactly one delivery started (none is retried). -/
theorem begin_failed_deliveries (d : Deps Html) (r : BeginRun) (cs : ChatState) (c : Callback)
    (last : Message) (hAge : r.tCheck < c.Message.Time + d.Lifetime)
    (hLast : cs.Last = some last) (hID : last.ID = c.Message.ID)
    (hDeb : ¬ (cs.LastBeginTime + humanReactionTime > r.now))
    (ident : UserPtr → Int) (hDistinct : (cs.Players.map ident).Nodup)
    (hM : cs.Card.Words ≠ [])
    (hK : ∃ i, i < cs.Players.length ∧ r.sendErr i ≠ none) :
    ∃ roster failed,
      roster = Shuffle cs.Players r.swaps ∧
      failed = collectFailed (received r roster) ∧
      (∀ p, p ∈ failed ↔ ∃ i, roster[i]? = some p ∧ r.sendErr i ≠ none) ∧
      failed.Nodup ∧
      failed.length = (List.range roster.length).countP (fun i => decide (r.sendErr i ≠ none)) ∧
      1 ≤ failed.length ∧
      (∀ picks : List Nat,
        (collectFailed (received { r with picks := picks } roster)).Perm failed) ∧
      (OnBtnBegin d r (some cs) c).trace.filter Event.isPost =
        [Event.post c.Message.Chat
          (d.renderUndelievered (d.PlayersHTML { cs with Players := roster } failed) d.Username)
          false] ∧
      ∃ texts : List String, texts.length = roster.length ∧
        (OnBtnBegin d r (some cs) c).trace.filter Event.isGoSend =
          List.zipWith Event.goSend roster texts := by
  obtain ⟨i, hi, hei⟩ := hK
  have hN : cs.Players ≠ [] := by
    intro h; rw [h] at hi; simp at hi
  obtain ⟨hare, word, tail, hh, hw, htail, htr, hcs, -⟩ :=
    OnBtnBegin_resolve_fields d r cs c last hAge hLast hID hDeb hN hM
  have hperm := Shuffle_perm r.swaps cs.Players
  have hnd : (Shuffle cs.Players r.swaps).Nodup := hperm.nodup_iff.mpr hDistinct.of_map
  have hlen := length_collectFailed_received r (Shuffle cs.Players r.swaps)
  have hpos : 1 ≤ (collectFailed (received r (Shuffle cs.Players r.swaps))).length := by
    rw [hlen]
    apply List.countP_pos_iff.mpr
    exact ⟨i, List.mem_range.mpr (by rw [hperm.length_eq]; exact hi), by simpa using hei⟩
  refine ⟨_, _, rfl, rfl, mem_collectFailed_received r _, nodup_collectFailed_received r _ hnd,
    hlen, hpos, ?_, ?_, ?_⟩
  · intro picks
    exact (collectFailed_received_perm { r with picks := picks } _).trans
      (collectFailed_received_perm r _).symm
  · rw [htr, filter_isPost_resolveTrace]
    · have : 0 < (collectFailed (received r (Shuffle cs.Players r.swaps))).length := hpos
      simp [outcomeMsg, this]
    · rcases htail with h | h <;> rw [h] <;> simp [Event.isPost]
  · refine ⟨(Shuffle cs.Players r.swaps).map
      (fun p => if p = hare then d.msgYouAreHare else word), by simp, ?_⟩
    rw [htr, filter_isGoSend_resolveTrace]
    · simp only
      generalize Shuffle cs.Players r.swaps = l
      induction l with
      | nil => rfl
      | cons a t ih => simp [ih]
    · rcases htail with h | h <;> rw [h] <;> simp [Event.isGoSend]

theorem begin_failed_deliveries_witness :
    ∃ roster failed,
      roster = Shuffle cs3.Players runFail.swaps ∧
      failed = collectFailed (received runFail roster) ∧
      (∀ p, p ∈ failed ↔ ∃ i, roster[i]? = some p ∧ runFail.sendErr i ≠ none) ∧
      failed.Nodup ∧
      failed.length
        = (List.range roster.length).countP (fun i => decide (runFail.sendErr i ≠ none)) ∧
      1 ≤ failed.length ∧
      (∀ picks : List Nat,
        (collectFailed (received { runFail with picks := picks } roster)).Perm failed) ∧
      (OnBtnBegin sampleDeps runFail (some cs3) ⟨⟨2⟩, msgM1⟩).trace.filter Event.isPost =
        [Event.post msgM1.Chat
          (sampleDeps.renderUndelievered
            (sampleDeps.PlayersHTML { cs3 with Players := roster } failed) sampleDeps.Username)
          false] ∧
      ∃ texts : List String, texts.length = roster.length ∧
        (OnBtnBegin sampleDeps runFail (some cs3) ⟨⟨2⟩, msgM1⟩).trace.filter Event.isGoSend =
          List.zipWith Event.goSend roster texts :=
  begin_failed_deliveries sampleDeps runFail cs3 ⟨⟨2⟩, msgM1⟩ msgM1 (by decide) rfl rfl
    (by decide) (fun p => (p.addr : Int)) (by decide) (by decide) ⟨1, by decide, by decide⟩

/-- C6: when every delivery succeeds, the public outcome is `renderPlay` over
`PlayersHTML` of the session after the shuffle and its whole roster, with the
bot's user name and the kind of chat. Two runs from the same session with the
same shuffle result, whatever their draws for the hare and the word (and whatever the
arrival order), post the same text; the roster it is rendered over is a
permutation of the roster before, so no member is left out. -/
theorem begin_public_outcome_hides_draws (d : Deps Html) (r1 r2 : BeginRun) (cs : ChatState)
    (c : Callback) (last : Message)
    (hAge1 : r1.tCheck < c.Message.Time + d.Lifetime)
    (hAge2 : r2.tCheck < c.Message.Time + d.Lifetime)
    (hLast : cs.Last = some last) (hID : last.ID = c.Message.ID)
    (hDeb1 : ¬ (cs.LastBeginTime + humanReactionTime > r1.now))
    (hDeb2 : ¬ (cs.LastBeginTime + humanReactionTime > r2.now))
    (hN : cs.Players ≠ []) (hM : cs.Card.Words ≠ [])
    (hShuffle : Shuffle cs.Players r1.swaps = Shuffle cs.Players r2.swaps)
    (hOk1 : ∀ i, i < cs.Players.length → r1.sendErr i = none)
    (hOk2 : ∀ i, i < cs.Players.length → r2.sendErr i = none) :
    (OnBtnBegin d r1 (some cs) c).trace.filter Event.isPost =
      [Event.post c.Message.Chat
        (d.renderPlay
          (d.PlayersHTML { cs with Players := Shuffle cs.Players r1.swaps }
            (Shuffle cs.Players r1.swaps))
          d.Username c.Message.Chat.Private)
        false] ∧
    (OnBtnBegin d r2 (some cs) c).trace.filter Event.isPost =
      (OnBtnBegin d r1 (some cs) c).trace.filter Event.isPost ∧
    (Shuffle cs.Players r1.swaps).Perm cs.Players := by
  have key : ∀ r : BeginRun, r.tCheck < c.Message.Time + d.Lifetime →
      ¬ (cs.LastBeginTime + humanReactionTime > r.now) →
      (∀ i, i < cs.Players.length → r.sendErr i = none) →
      (OnBtnBegin d r (some cs) c).trace.filter Event.isPost =
        [Event.post c.Message.Chat
          (d.renderPlay
            (d.PlayersHTML { cs with Players := Shuffle cs.Players r.swaps }
              (Shuffle cs.Players r.swaps))
            d.Username c.Message.Chat.Private)
          false] := by
    intro r hAge hDeb hOk
    obtain ⟨hare, word, tail, -, -, htail, htr, -, -⟩ :=
      OnBtnBegin_resolve_fields d r cs c last hAge hLast hID hDeb hN hM
    have hnil : collectFailed (received r (Shuffle cs.Players r.swaps)) = [] := by
      apply collectFailed_received_nil
      intro i hi
      rw [(Shuffle_perm r.swaps cs.Players).length_eq] at hi
      exact hOk i hi
    rw [htr, filter_isPost_resolveTrace]
    · simp [outcomeMsg, hnil]
    · rcases htail with h | h <;> rw [h] <;> simp [Event.isPost]
  refine ⟨key r1 hAge1 hDeb1 hOk1, ?_, Shuffle_perm _ _⟩
  rw [key r1 hAge1 hDeb1 hOk1, key r2 hAge2 hDeb2 hOk2, hShuffle]

theorem begin_public_outcome_hides_draws_witness :
    (OnBtnBegin sampleDeps runOk (some cs3) ⟨⟨2⟩, msgM1⟩).trace.filter Event.isPost =
      [Event.post msgM1.Chat
        (sampleDeps.renderPlay
          (sampleDeps.PlayersHTML { cs3 with Players := Shuffle cs3.Players runOk.swaps }
            (Shuffle cs3.Players runOk.swaps))
          sampleDeps.Username msgM1.Chat.Private)
        false] ∧
    (OnBtnBegin sampleDeps runOk2 (some cs3) ⟨⟨2⟩, msgM1⟩).trace.filter Event.isPost =
      (OnBtnBegin sampleDeps runOk (some cs3) ⟨⟨2⟩, msgM1⟩).trace.filter Event.isPost ∧
    (Shuffle cs3.Players runOk.swaps).Perm cs3.Players :=
  begin_public_outcome_hides_draws sampleDeps runOk runOk2 cs3 ⟨⟨2⟩, msgM1⟩ msgM1
    (by decide) (by decide) rfl rfl (by decide) (by decide) (by decide) (by decide) rfl
    (fun _ _ => rfl) (fun _ _ => rfl)

/-- C2, the claim as written fails: when the public post of the first Begin
fails, a second Begin on the same message one second later is not debounced: it
starts three private deliveries and posts an outcome of its own. -/
theorem begin_twice_after_failed_post :
    cs3.Players ≠ [] ∧
    runPostFails.postResult = none ∧
    runPostFails.now ≤ runSecond.now ∧
    runSecond.now < runPostFails.now + humanReactionTime ∧
    ((OnBtnBegin sampleDeps runPostFails (some cs3) ⟨⟨2⟩, msgM1⟩).trace.filter
      Event.isPost).length = 1 ∧
    ((OnBtnBegin sampleDeps runSecond
        (OnBtnBegin sampleDeps runPostFails (some cs3) ⟨⟨2⟩, msgM1⟩).cs ⟨⟨3⟩, msgM1⟩).trace.filter
      Event.isGoSend).length = 3 ∧
    ((OnBtnBegin sampleDeps runSecond
        (OnBtnBegin sampleDeps runPostFails (some cs3) ⟨⟨2⟩, msgM1⟩).cs ⟨⟨3⟩, msgM1⟩).trace.filter
      Event.isPost).length = 1 ∧
    (OnBtnBegin sampleDeps runPostFails (some cs3) ⟨⟨2⟩, msgM1⟩).cs.map ChatState.LastBeginTime
      = some cs3.LastBeginTime := by
  decide

/-- C2, amended: on a session with a non-empty roster and a non-empty deck, let a
first Begin on the current message run the resolution (it is not debounced),
let its public post succeed, and let the clock reading taken after that post
be no earlier than the reading taken on entry. Then a second Begin on that
message entered less than `humanReactionTime` after the first was entered only
acquires the session, reads it and releases it: it makes no transport call and
leaves the session as the first Begin left it. Over both handlers there is one
public post and one private delivery per roster member. -/
theorem begin_debounce (d : Deps Html) (r1 r2 : BeginRun) (cs : ChatState) (c1 c2 : Callback)
    (last : Message) (hMsg : c2.Message = c1.Message)
    (hAge1 : r1.tCheck < c1.Message.Time + d.Lifetime)
    (hAge2 : r2.tCheck < c1.Message.Time + d.Lifetime)
    (hLast : cs.Last = some last) (hID : last.ID = c1.Message.ID)
    (hDeb1 : ¬ (cs.LastBeginTime + humanReactionTime > r1.now))
    (hN : cs.Players ≠ []) (hM : cs.Card.Words ≠ [])
    (hPost : r1.postResult ≠ none) (hClock : r1.now ≤ r1.tEnd)
    (hSecond : r2.now < r1.now + humanReactionTime) :
    ∃ cs1, (OnBtnBegin d r1 (some cs) c1).cs = some cs1 ∧
      OnBtnBegin d r2 (some cs1) c2 =
        ⟨some cs1,
          [Event.acquire c1.Message.Chat.ID, Event.sessRead, Event.sessRead,
            Event.release c1.Message.Chat.ID],
          false⟩ ∧
      transport (OnBtnBegin d r2 (some cs1) c2).trace = [] ∧
      (((OnBtnBegin d r1 (some cs) c1).trace ++ (OnBtnBegin d r2 (some cs1) c2).trace).filter
        Event.isPost).length = 1 ∧
      (((OnBtnBegin d r1 (some cs) c1).trace ++ (OnBtnBegin d r2 (some cs1) c2).trace).filter
        Event.isGoSend).length = cs.Players.length := by
  obtain ⟨hare, word, tail, -, -, htail, htr, hcs, -⟩ :=
    OnBtnBegin_resolve_fields d r1 cs c1 last hAge1 hLast hID hDeb1 hN hM
  obtain ⟨resp, hresp⟩ := Option.ne_none_iff_exists'.mp hPost
  rw [hresp] at hcs
  simp only at hcs
  have h2 : OnBtnBegin d r2
      (some { cs with Players := Shuffle cs.Players r1.swaps, LastBeginTime := r1.tEnd }) c2 =
        ⟨some { cs with Players := Shuffle cs.Players r1.swaps, LastBeginTime := r1.tEnd },
          [Event.acquire c1.Message.Chat.ID, Event.sessRead, Event.sessRead,
            Event.release c1.Message.Chat.ID],
          false⟩ := by
    have hdeb : r1.tEnd + humanReactionTime > r2.now :=
      lt_of_lt_of_le hSecond (add_le_add_right hClock _)
    have hcur := chatState_current d r2.tCheck
      { cs with Players := Shuffle cs.Players r1.swaps, LastBeginTime := r1.tEnd }
      c1.Message last hAge2 hLast hID
    simp [OnBtnBegin, hMsg, hcur, hdeb]
  refine ⟨_, hcs, h2, ?_, ?_, ?_⟩
  · rw [h2]; simp [transport, Event.isTransport]
  · have hA := filter_isPost_resolveTrace d r1
      { cs with Players := Shuffle cs.Players r1.swaps } c1.Message hare word tail
      (by rcases htail with h | h <;> rw [h] <;> simp [Event.isPost])
    rw [h2, List.filter_append, htr, hA]
    simp [Event.isPost]
  · have hA := filter_isGoSend_resolveTrace d r1
      { cs with Players := Shuffle cs.Players r1.swaps } c1.Message hare word tail
      (by rcases htail with h | h <;> rw [h] <;> simp [Event.isGoSend])
    rw [h2, List.filter_append, htr, hA]
    simp [Event.isGoSend, (Shuffle_perm r1.swaps cs.Players).length_eq]

theorem begin_debounce_witness :
    ∃ cs1, (OnBtnBegin sampleDeps runOk (some cs3) ⟨⟨2⟩, msgM1⟩).cs = some cs1 ∧
      OnBtnBegin sampleDeps runSecond (some cs1) ⟨⟨3⟩, msgM1⟩ =
        ⟨some cs1,
          [Event.acquire msgM1.Chat.ID, Event.sessRead, Event.sessRead,
            Event.release msgM1.Chat.ID],
          false⟩ ∧
      transport (OnBtnBegin sampleDeps runSecond (some cs1) ⟨⟨3⟩, msgM1⟩).trace = [] ∧
      (((OnBtnBegin sampleDeps runOk (some cs3) ⟨⟨2⟩, msgM1⟩).trace
          ++ (OnBtnBegin sampleDeps runSecond (some cs1) ⟨⟨3⟩, msgM1⟩).trace).filter
        Event.isPost).length = 1 ∧
      (((OnBtnBegin sampleDeps runOk (some cs3) ⟨⟨2⟩, msgM1⟩).trace
          ++ (OnBtnBegin sampleDeps runSecond (some cs1) ⟨⟨3⟩, msgM1⟩).trace).filter
        Event.isGoSend).length = cs3.Players.length :=
  begin_debounce sampleDeps runOk runSecond cs3 ⟨⟨2⟩, msgM1⟩ ⟨⟨3⟩, msgM1⟩ msgM1 rfl
    (by decide) (by decide) rfl rfl (by decide) (by decide) (by decide) (by decide) (by decide)
    (by decide)

/-- C7: `OnPlay` on a session whose current message is `M1`, when the new
interactive message is posted as `M2`, removes the keyboard of `M1` before it
posts, and leaves `Last = M2`. A Join on `M1` afterwards, with `M1.ID ≠ M2.ID`,
is answered as obsolete and leaves the session (roster and `Last`) as `OnPlay`
left it. On a session without a current message `OnPlay` removes no keyboard,
whatever the result of its post. -/
theorem newround_invalidates_old_message (d : Deps Html) (cs : ChatState) (M1 M2 m : Message)
    (tNow : Time) (u : UserPtr) (hLast : cs.Last = some M1) (hID : M1.ID ≠ M2.ID) :
    (OnPlay d (some M2) (some cs) m).trace =
      [Event.acquire m.Chat.ID, Event.sessRead, Event.sessRead, Event.editReplyMarkup M1,
        Event.sessWrite, Event.sessWrite, Event.sessWrite, Event.sessRead,
        Event.post m.Chat
          (d.renderChatState (d.AddPlayer { d.Reset cs with Card := d.parseCard m.Text } m.Sender).1)
          true,
        Event.sessWrite, Event.release m.Chat.ID] ∧
    (OnPlay d (some M2) (some cs) m).cs.map ChatState.Last = some (some M2) ∧
    (OnBtnJoin d tNow (OnPlay d (some M2) (some cs) m).cs ⟨u, M1⟩).cs
      = (OnPlay d (some M2) (some cs) m).cs ∧
    transport (OnBtnJoin d tNow (OnPlay d (some M2) (some cs) m).cs ⟨u, M1⟩).trace
      = [Event.reply M1 d.msgObsolete, Event.editReplyMarkup M1] ∧
    ∀ pr : Option Message,
      (OnPlay d pr (some { cs with Last := none }) m).trace.filter Event.isEditReplyMarkup = [] := by
  refine ⟨by simp [OnPlay, hLast, PostChatState], by simp [OnPlay, PostChatState], ?_, ?_, ?_⟩
  · have hs := chatState_stale d tNow
      { (d.AddPlayer { d.Reset cs with Card := d.parseCard m.Text } m.Sender).1 with
        Last := some M2 } M1
      (Or.inr (Or.inr ⟨M2, rfl, fun h => hID h.symm⟩))
    rcases hs with hs | hs <;> simp [OnPlay, PostChatState, OnBtnJoin, hs]
  · have hs := chatState_stale d tNow
      { (d.AddPlayer { d.Reset cs with Card := d.parseCard m.Text } m.Sender).1 with
        Last := some M2 } M1
      (Or.inr (Or.inr ⟨M2, rfl, fun h => hID h.symm⟩))
    rcases hs with hs | hs <;>
      simp [OnPlay, PostChatState, OnBtnJoin, hs, transport, replyObselete, Event.isTransport]
  · intro pr
    cases pr <;> simp [OnPlay, PostChatState, Event.isEditReplyMarkup]

theorem newround_invalidates_old_message_witness :
    (OnPlay sampleDeps (some msgM2) (some cs3) msgM2).trace =
      [Event.acquire msgM2.Chat.ID, Event.sessRead, Event.sessRead, Event.editReplyMarkup msgM1,
        Event.sessWrite, Event.sessWrite, Event.sessWrite, Event.sessRead,
        Event.post msgM2.Chat
          (sampleDeps.renderChatState
            (sampleDeps.AddPlayer
              { sampleDeps.Reset cs3 with Card := sampleDeps.parseCard msgM2.Text }
              msgM2.Sender).1)
          true,
        Event.sessWrite, Event.release msgM2.Chat.ID] ∧
    (OnPlay sampleDeps (some msgM2) (some cs3) msgM2).cs.map ChatState.Last = some (some msgM2) ∧
    (OnBtnJoin sampleDeps (210 * Second) (OnPlay sampleDeps (some msgM2) (some cs3) msgM2).cs
        ⟨⟨4⟩, msgM1⟩).cs
      = (OnPlay sampleDeps (some msgM2) (some cs3) msgM2).cs ∧
    transport (OnBtnJoin sampleDeps (210 * Second)
        (OnPlay sampleDeps (some msgM2) (some cs3) msgM2).cs ⟨⟨4⟩, msgM1⟩).trace
      = [Event.reply msgM1 sampleDeps.msgObsolete, Event.editReplyMarkup msgM1] ∧
    ∀ pr : Option Message,
      (OnPlay sampleDeps pr (some { cs3 with Last := none }) msgM2).trace.filter
        Event.isEditReplyMarkup = [] :=
  newround_invalidates_old_message sampleDeps cs3 msgM1 msgM2 msgM2 (210 * Second) ⟨4⟩ rfl
    (by decide)

/-- C8: for `OnPlay`, `OnBtnJoin`, `OnBtnLeave` and `OnBtnBegin`, on every input
and along every path, the trace has as many `unlock` calls as `Get` calls, at
most one of each, and every read or write of the session lies after the `Get`
and before the `unlock`. In a Begin that runs the resolution the `unlock` is
the last event: before it lie one receive per roster member and the public
post, and no other `unlock`. -/
theorem lease_held_around_every_access (d : Deps Html) (pr : Option Message) (tNow : Time)
    (r : BeginRun) (stored : Option ChatState) (m : Message) (c : Callback) :
    LeaseDiscipline (OnPlay d pr stored m).trace ∧
    LeaseDiscipline (OnBtnJoin d tNow stored c).trace ∧
    LeaseDiscipline (OnBtnLeave d tNow stored c).trace ∧
    LeaseDiscipline (OnBtnBegin d r stored c).trace ∧
    ∀ (cs : ChatState) (last : Message), stored = some cs →
      r.tCheck < c.Message.Time + d.Lifetime → cs.Last = some last → last.ID = c.Message.ID →
      ¬ (cs.LastBeginTime + humanReactionTime > r.now) →
      cs.Players ≠ [] → cs.Card.Words ≠ [] →
      ∃ body, (OnBtnBegin d r stored c).trace = body ++ [Event.release c.Message.Chat.ID] ∧
        body.countP Event.isRecv = cs.Players.length ∧
        body.countP Event.isPost = 1 ∧
        body.countP Event.isRelease = 0 := by
  refine ⟨lease_OnPlay d pr stored m, lease_OnBtnJoin d tNow stored c,
    lease_OnBtnLeave d tNow stored c, lease_OnBtnBegin d r stored c, ?_⟩
  intro cs last hs hAge hLast hID hDeb hN hM
  subst hs
  obtain ⟨hare, word, tail, -, -, htail, htr, -, -⟩ :=
    OnBtnBegin_resolve_fields d r cs c last hAge hLast hID hDeb hN hM
  have hlen : (received r (Shuffle cs.Players r.swaps)).length = cs.Players.length := by
    rw [(received_perm r _).length_eq, length_sendResults, (Shuffle_perm _ _).length_eq]
  have hG : ∀ (p : Event → Bool) (L : List (UserPtr × String)),
      (∀ u t, p (Event.goSend u t) = false) →
      (L.map (fun l => Event.goSend l.1 l.2)).countP p = 0 := by
    intro p L hp
    rw [List.countP_eq_zero]
    intro e he
    obtain ⟨x, _, rfl⟩ := List.mem_map.mp he
    simp [hp]
  have hR : ∀ (p : Event → Bool) (L : List result),
      (∀ u t, p (Event.recv u t) = false) →
      (L.map (fun x => Event.recv x.player x.err)).countP p = 0 := by
    intro p L hp
    rw [List.countP_eq_zero]
    intro e he
    obtain ⟨x, _, rfl⟩ := List.mem_map.mp he
    simp [hp]
  have hRR : ∀ L : List result,
      (L.map (fun x => Event.recv x.player x.err)).countP Event.isRecv = L.length := by
    intro L
    induction L with
    | nil => rfl
    | cons x t ih => simp [List.countP_cons, ih, Event.isRecv]
  rcases htail with h | h
  · refine ⟨resolveTrace d r { cs with Players := Shuffle cs.Players r.swaps } c.Message hare word
      ++ [Event.sessWrite], by rw [htr, h]; simp, ?_, ?_, ?_⟩
    · simp [resolveTrace, List.countP_append, List.countP_cons, hRR, hlen,
        hG Event.isRecv _ (fun _ _ => rfl), Event.isRecv]
    · simp [resolveTrace, List.countP_append, List.countP_cons,
        hG Event.isPost _ (fun _ _ => rfl), hR Event.isPost _ (fun _ _ => rfl), Event.isPost]
    · simp [resolveTrace, List.countP_append, List.countP_cons,
        hG Event.isRelease _ (fun _ _ => rfl), hR Event.isRelease _ (fun _ _ => rfl),
        Event.isRelease]
  · refine ⟨resolveTrace d r { cs with Players := Shuffle cs.Players r.swaps } c.Message hare word,
      by rw [htr, h], ?_, ?_, ?_⟩
    · simp [resolveTrace, List.countP_append, List.countP_cons, hRR, hlen,
        hG Event.isRecv _ (fun _ _ => rfl), Event.isRecv]
    · simp [resolveTrace, List.countP_append, List.countP_cons,
        hG Event.isPost _ (fun _ _ => rfl), hR Event.isPost _ (fun _ _ => rfl), Event.isPost]
    · simp [resolveTrace, List.countP_append, List.countP_cons,
        hG Event.isRelease _ (fun _ _ => rfl), hR Event.isRelease _ (fun _ _ => rfl),
        Event.isRelease]

theorem lease_held_around_every_access_witness :
    LeaseDiscipline (OnBtnBegin sampleDeps runOk (some cs3) ⟨⟨2⟩, msgM1⟩).trace ∧
    ∃ body, (OnBtnBegin sampleDeps runOk (some cs3) ⟨⟨2⟩, msgM1⟩).trace
        = body ++ [Event.release msgM1.Chat.ID] ∧
      body.countP Event.isRecv = cs3.Players.length ∧
      body.countP Event.isPost = 1 ∧
      body.countP Event.isRelease = 0 :=
  ⟨(lease_held_around_every_access sampleDeps (some msgM2) (110 * Second) runOk (some cs3) msgM2
      ⟨⟨2⟩, msgM1⟩).2.2.2.1,
    (lease_held_around_every_access sampleDeps (some msgM2) (110 * Second) runOk (some cs3) msgM2
      ⟨⟨2⟩, msgM1⟩).2.2.2.2 cs3 msgM1 rfl (by decide) rfl rfl (by decide) (by decide)
      (by decide)⟩

end Enlapin
